import Mathlib

/-!
# Fixed-region memory pool (`99_Memory_allocate/main.c`)

A shallow embedding of the pool allocator of `main.c` and the properties of
its specification.

Conventions of the embedding (LP64, two's complement, `sizeof(int) = 4`):

* an `int` is an integer in `[INT_MIN, INT_MAX]`; a value converted to `int`
  is reduced modulo `2^32` (`toInt`);
* `size_t` is 64 bits wide and unsigned (`toSizeT`); `ptrdiff_t` and `long` are
  64 bits wide and signed (`toLong`);
* a pointer is its address, a natural number, and `NULL` is address `0`;
  pointer arithmetic is address arithmetic modulo `2^64`;
* the control blocks live in a heap that maps the address of a control block
  to its contents; the two globals `_mm_head` and `_mm_byte_count` complete
  the state;
* a call that dereferences `NULL` has no result (`none`);
* `mm_pool_allocate` is given the cell that `mm_ptr` points to when that cell
  lies apart from the control blocks and the globals; `mm_pool_allocate_at`
  is given the place itself and covers an `mm_ptr` into a control block or at
  `_mm_head`.
-/

set_option linter.unusedVariables false

namespace MemoryPool

/-- Addresses; `NULL` is address `0`. -/
abbrev Ptr := Nat

/-- The null pointer. -/
def NULL : Ptr := 0

/-- Largest value of a C `int`. -/
def INT_MAX : Int := 2147483647

/-- Smallest value of a C `int`. -/
def INT_MIN : Int := -2147483648

/-- Conversion to `int`: reduction modulo `2^32` into `[INT_MIN, INT_MAX]`. -/
def toInt (x : Int) : Int := (x + 2147483648) % 4294967296 - 2147483648

/-- Conversion to `size_t`: reduction modulo `2^64` into `[0, 2^64)`. -/
def toSizeT (x : Int) : Int := x % 18446744073709551616

/-- Conversion to `long` / `ptrdiff_t`: reduction modulo `2^64` into
`[-2^63, 2^63)`. -/
def toLong (x : Int) : Int :=
  (x + 9223372036854775808) % 18446744073709551616 - 9223372036854775808

/-- The macro `ALIGN_SIZE`, that is `sizeof(int)`, a `size_t`. -/
def ALIGN_SIZE : Int := 4

/-- Pointer difference `p - q` of two `char *`, a `ptrdiff_t`. -/
def ptrDiff (p q : Ptr) : Int := toLong ((p : Int) - (q : Int))

/-- Pointer displacement `p + k` of a `char *` by an integer. -/
def ptrAdd (p : Ptr) (k : Int) : Ptr := (((p : Int) + k) % 18446744073709551616).toNat

/-- The control block `struct mm_pool_s`. -/
structure mm_pool_s where
  mm_pool_id : Int
  mm_pool_list : Ptr
  mm_pool_search : Ptr
  mm_pool_start : Ptr
  mm_pool_size : Int
  next : Ptr
  prev : Ptr
  deriving DecidableEq, Repr

/-- The control block after `memset(pool_ptr, 0, sizeof(mm_pool_t))`. -/
def zeroed : mm_pool_s :=
  { mm_pool_id := 0, mm_pool_list := NULL, mm_pool_search := NULL, mm_pool_start := NULL,
    mm_pool_size := 0, next := NULL, prev := NULL }

/-- The program state: the control blocks by address and the two globals. -/
structure State where
  heap : Ptr → mm_pool_s
  _mm_head : Ptr
  _mm_byte_count : Int

/-- Store `v` at address `p` of the heap. -/
def store (h : Ptr → mm_pool_s) (p : Ptr) (v : mm_pool_s) : Ptr → mm_pool_s :=
  fun q => if q = p then v else h q

/-- The assignment `pool->mm_pool_list = x` on the contents of a block. -/
def set_list (v : mm_pool_s) (x : Ptr) : mm_pool_s := { v with mm_pool_list := x }

/-- The assignment `pool->mm_pool_search = x` on the contents of a block. -/
def set_search (v : mm_pool_s) (x : Ptr) : mm_pool_s := { v with mm_pool_search := x }

/-- The assignment `pool->mm_pool_start = x` on the contents of a block. -/
def set_start (v : mm_pool_s) (x : Ptr) : mm_pool_s := { v with mm_pool_start := x }

/-- The assignment `pool->mm_pool_size = x` on the contents of a block. -/
def set_size (v : mm_pool_s) (x : Int) : mm_pool_s := { v with mm_pool_size := x }

/-- The assignment `pool->next = x` on the contents of a block. -/
def set_next (v : mm_pool_s) (x : Ptr) : mm_pool_s := { v with next := x }

/-- The assignment `pool->prev = x` on the contents of a block. -/
def set_prev (v : mm_pool_s) (x : Ptr) : mm_pool_s := { v with prev := x }

/-- A heap whose control blocks are all zero, as static storage is at program
start. -/
def zero_heap : Ptr → mm_pool_s := fun _ => zeroed

/-- The state at program start: `_mm_head = NULL`, `_mm_byte_count = 0`. -/
def initial (h : Ptr → mm_pool_s) : State :=
  { heap := h, _mm_head := NULL, _mm_byte_count := 0 }

/-- The local `aligned_mm_size` of `mm_pool_allocate`:
`(mm_size + ALIGN_SIZE - 1) / ALIGN_SIZE * ALIGN_SIZE`, computed in `size_t`
and stored into an `int`. -/
def aligned_mm_size (mm_size : Int) : Int :=
  toInt (toSizeT (toSizeT (toSizeT (toSizeT (toSizeT mm_size + ALIGN_SIZE) - 1) / ALIGN_SIZE)
    * ALIGN_SIZE))

/-- The outcome of `mm_pool_allocate`: the returned status, the state after the
call, and the contents of `*mm_ptr` after the call (`none` when `mm_ptr` is
`NULL`). -/
structure AllocResult where
  status : Int
  state : State
  out : Option Ptr

/-- The function `mm_pool_allocate(pool_ptr, mm_ptr, mm_size, wait_op)` for an
`mm_ptr` that is null or points to a cell apart from the control blocks and
the globals. The argument `mm_ptr` is `none` for a null `mm_ptr` and `some v`
for a pointer to such a cell that holds `v` before the call. The case of an
`mm_ptr` into a control block is `mm_pool_allocate_at`. -/
def mm_pool_allocate (s : State) (pool_ptr : Ptr) (mm_ptr : Option Ptr) (mm_size : Int)
    (wait_op : Int) : AllocResult :=
  if pool_ptr = NULL ∨ mm_ptr = none ∨ mm_size ≤ 0 then
    { status := -1, state := s, out := mm_ptr }
  else
    let aligned := aligned_mm_size mm_size
    let pool := s.heap pool_ptr
    if pool.mm_pool_start = NULL ∨ pool.mm_pool_size ≤ 0 then
      { status := -1, state := s, out := mm_ptr }
    else if toLong (ptrDiff pool.mm_pool_list pool.mm_pool_start + aligned)
        > pool.mm_pool_size then
      { status := -2, state := s, out := some NULL }
    else
      let h1 := store s.heap pool_ptr (set_list pool (ptrAdd pool.mm_pool_list aligned))
      { status := 0, state := { s with heap := h1 }, out := some pool.mm_pool_list }

/-- The value that `mm_pool_create` assigns to `mm_size`:
`(mm_size / ALIGN_SIZE) * ALIGN_SIZE`, computed in `size_t` and stored into
the `int`. -/
def rounded_size (mm_size : Int) : Int :=
  toInt (toSizeT (toSizeT (toSizeT mm_size / ALIGN_SIZE) * ALIGN_SIZE))

/-- The function `mm_pool_create(pool_ptr, mm_size, start_address)`; `none`
when the call dereferences `NULL`. -/
def mm_pool_create (s : State) (pool_ptr : Ptr) (mm_size : Int) (start_address : Ptr) :
    Option State :=
  if start_address = NULL ∨ pool_ptr = NULL ∨ mm_size ≤ 0 then
    some s
  else
    let h0 := store s.heap pool_ptr zeroed
    let mm_size1 := rounded_size mm_size
    if mm_size1 = 0 then
      some { s with heap := h0 }
    else
      let h1 := store h0 pool_ptr (set_start (h0 pool_ptr) start_address)
      let h2 := store h1 pool_ptr (set_size (h1 pool_ptr) mm_size1)
      let h3 := store h2 pool_ptr (set_list (h2 pool_ptr) (h2 pool_ptr).mm_pool_start)
      let h4 := store h3 pool_ptr (set_search (h3 pool_ptr) (h3 pool_ptr).mm_pool_start)
      if s._mm_byte_count = 0 then
        let head := pool_ptr
        let h5 := store h4 head (set_next (h4 head) head)
        let h6 := store h5 head (set_prev (h5 head) head)
        some { heap := h6, _mm_head := head,
               _mm_byte_count := toInt (s._mm_byte_count + 1) }
      else
        let next := s._mm_head
        if next = NULL then none
        else
          let prev := (h4 next).prev
          let h5 := store h4 pool_ptr (set_next (h4 pool_ptr) next)
          let h6 := store h5 pool_ptr (set_prev (h5 pool_ptr) prev)
          let h7 := store h6 next (set_prev (h6 next) pool_ptr)
          if prev = NULL then none
          else
            let h8 := store h7 prev (set_next (h7 prev) pool_ptr)
            some { heap := h8, _mm_head := s._mm_head,
                   _mm_byte_count := toInt (s._mm_byte_count + 1) }

/-- The function `mm_pool_free()`: its body is empty. -/
def mm_pool_free (s : State) : State := s

/-! ## Vocabulary of the specification -/

/-- Largest value of a `long`. -/
def LONG_MAX : Int := 9223372036854775807

/-- The offset `cursor - start` of a pool, the value of the C expression
`pool_ptr->mm_pool_list - pool_ptr->mm_pool_start`. -/
def offset (pool : mm_pool_s) : Int := ptrDiff pool.mm_pool_list pool.mm_pool_start

/-- The `align_up(size, granularity)` of the specification at granularity
`ALIGN_SIZE`, over the unbounded integers: the request rounded up to a
multiple of `ALIGN_SIZE`. -/
def align_up (size : Int) : Int := (size + ALIGN_SIZE - 1) / ALIGN_SIZE * ALIGN_SIZE

/-- The value `a` is the smallest multiple of `ALIGN_SIZE` that is `>= n`. -/
def IsLeastMultiple (a n : Int) : Prop :=
  ALIGN_SIZE ∣ a ∧ n ≤ a ∧ ∀ m : Int, ALIGN_SIZE ∣ m → n ≤ m → a ≤ m

/-- The state after `k` calls `mm_pool_allocate(pool_ptr, mm_ptr, mm_size, wait_op)`
in a row, and the contents of `*mm_ptr` then. -/
def allocate_repeat (pool_ptr : Ptr) (mm_size wait_op : Int) :
    Nat → State × Option Ptr → State × Option Ptr
  | 0, c => c
  | k + 1, c =>
    let r := mm_pool_allocate (allocate_repeat pool_ptr mm_size wait_op k c).1 pool_ptr
      (allocate_repeat pool_ptr mm_size wait_op k c).2 mm_size wait_op
    (r.state, r.out)

/-- The contents of a control block that `mm_pool_create` has zeroed, set up
over the storage `a` with size `m`, and linked to `nx` and `pv`. -/
def fresh_block (a : Ptr) (m : Int) (nx pv : Ptr) : mm_pool_s :=
  { mm_pool_id := 0, mm_pool_list := a, mm_pool_search := a, mm_pool_start := a,
    mm_pool_size := m, next := nx, prev := pv }

/-- The arguments under which `mm_pool_create` goes on to link the pool: a
non-null control block, non-null storage and a size whose rounding down to a
multiple of `ALIGN_SIZE` is positive. -/
def create_args_ok (pool_ptr : Ptr) (mm_size : Int) (start_address : Ptr) : Prop :=
  pool_ptr ≠ NULL ∧ start_address ≠ NULL ∧ 0 < mm_size / ALIGN_SIZE * ALIGN_SIZE

/-- The registry can take the control block `pool_ptr`: it is empty, or its
head is a non-null block other than `pool_ptr` whose `prev` is not `NULL`.
These are the states in which the linking code of `mm_pool_create`
dereferences no null pointer. -/
def RegistryReady (s : State) (pool_ptr : Ptr) : Prop :=
  s._mm_byte_count = 0 ∨
    (s._mm_head ≠ NULL ∧ s._mm_head ≠ pool_ptr ∧ (s.heap s._mm_head).prev ≠ NULL)

/-- The registry of `s` can take the control block `pool_ptr` as a new
member: it is empty (`_mm_byte_count == 0`), or its head and its tail (the
head's `prev`) are non-null and `pool_ptr` is neither of them. -/
def RegistryTakes (s : State) (pool_ptr : Ptr) : Prop :=
  s._mm_byte_count = 0 ∨
    (s._mm_head ≠ NULL ∧ (s.heap s._mm_head).prev ≠ NULL ∧
      pool_ptr ≠ s._mm_head ∧ pool_ptr ≠ (s.heap s._mm_head).prev)

/-- The call that led from `s` to `t` registered `pool_ptr`: the pool count
grew by one and the block was linked into the ring. On an empty registry
(`_mm_byte_count == 0`) the block is the new head and its own `next` and
`prev`, and no other block changed. Otherwise the head stays and the block
stands between the old tail and the head: `new.next = head`,
`new.prev = old tail`, `head.prev = new`, `old tail.next = new`, and every
other `prev` and `next` link of the other blocks is as it was. -/
def Registered (s t : State) (pool_ptr : Ptr) : Prop :=
  t._mm_byte_count = s._mm_byte_count + 1 ∧
  (s._mm_byte_count = 0 →
    t._mm_head = pool_ptr ∧ (t.heap pool_ptr).next = pool_ptr ∧
    (t.heap pool_ptr).prev = pool_ptr ∧
    ∀ q : Ptr, q ≠ pool_ptr → t.heap q = s.heap q) ∧
  (s._mm_byte_count ≠ 0 →
    t._mm_head = s._mm_head ∧
    (t.heap pool_ptr).next = s._mm_head ∧
    (t.heap pool_ptr).prev = (s.heap s._mm_head).prev ∧
    (t.heap s._mm_head).prev = pool_ptr ∧
    (t.heap (s.heap s._mm_head).prev).next = pool_ptr ∧
    (∀ q : Ptr, q ≠ pool_ptr → q ≠ s._mm_head → (t.heap q).prev = (s.heap q).prev) ∧
    (∀ q : Ptr, q ≠ pool_ptr → q ≠ (s.heap s._mm_head).prev →
      (t.heap q).next = (s.heap q).next))

/-- What `main` computes: the offset of the cursor before the first request,
and for each of the three requests the status, the pointer left in `ptr1`,
`ptr2`, `ptr3` and the offset of the cursor after the call. -/
structure DemoTrace where
  offset0 : Int
  status1 : Int
  ptr1 : Ptr
  offset1 : Int
  status2 : Int
  ptr2 : Ptr
  offset2 : Int
  status3 : Int
  ptr3 : Ptr
  offset3 : Int
  start : Ptr

/-- The function `main`, up to its last allocation, with the stack block
`my_pool_block` at address `my_pool_block`, the 50-byte array `test_space` at
address `test_space`, and `h` the contents of the control blocks at start. -/
def main (h : Ptr → mm_pool_s) (my_pool_block test_space : Ptr) : Option DemoTrace :=
  match mm_pool_create (initial h) my_pool_block 50 test_space with
  | none => none
  | some s0 =>
    let main_pool := my_pool_block
    let r1 := mm_pool_allocate s0 main_pool (some NULL) 10 0
    let r2 := mm_pool_allocate r1.state main_pool (some NULL) 25 0
    let r3 := mm_pool_allocate r2.state main_pool (some NULL) 20 0
    some
      { offset0 := offset (s0.heap main_pool),
        status1 := r1.status, ptr1 := r1.out.getD NULL,
        offset1 := offset (r1.state.heap main_pool),
        status2 := r2.status, ptr2 := r2.out.getD NULL,
        offset2 := offset (r2.state.heap main_pool),
        status3 := r3.status, ptr3 := r3.out.getD NULL,
        offset3 := offset (r3.state.heap main_pool),
        start := (s0.heap main_pool).mm_pool_start }

/-- A block handed out by a successful `mm_pool_allocate`: the pointer written
to `*mm_ptr` and the aligned length of the request. -/
structure Block where
  addr : Ptr
  len : Int
  deriving DecidableEq, Repr

/-- The calls `mm_pool_allocate(pool_ptr, &ptr, n, 0)` for the requests `n` of
a list, in order, each with its own cell `ptr = NULL`: the state after the
last call and the blocks of the successful calls. -/
def allocate_all (pool_ptr : Ptr) : State → List Int → State × List Block
  | s, [] => (s, [])
  | s, n :: ns =>
    if (mm_pool_allocate s pool_ptr (some NULL) n 0).status = 0 then
      ((allocate_all pool_ptr (mm_pool_allocate s pool_ptr (some NULL) n 0).state ns).1,
        { addr := (mm_pool_allocate s pool_ptr (some NULL) n 0).out.getD NULL,
          len := aligned_mm_size n }
          :: (allocate_all pool_ptr (mm_pool_allocate s pool_ptr (some NULL) n 0).state ns).2)
    else
      allocate_all pool_ptr (mm_pool_allocate s pool_ptr (some NULL) n 0).state ns

/-- The regions `[addr, addr + len)` of two blocks do not overlap. -/
def Apart (b c : Block) : Prop :=
  (b.addr : Int) + b.len ≤ c.addr ∨ (c.addr : Int) + c.len ≤ b.addr

/-- The region `[addr, addr + len)` of a block lies inside `[a, a + m)`. -/
def Inside (a : Ptr) (m : Int) (b : Block) : Prop :=
  (a : Int) ≤ b.addr ∧ (b.addr : Int) + b.len ≤ (a : Int) + m

/-- The pool at `p` manages the storage at `a` of size `m`, with the cursor
`o` bytes into it. -/
def PoolAt (s : State) (p a : Ptr) (m : Int) (o : Nat) : Prop :=
  (s.heap p).mm_pool_start = a ∧ (s.heap p).mm_pool_size = m ∧
  (s.heap p).mm_pool_list = a + o ∧ (o : Int) ≤ m

/-- The arguments of one call `mm_pool_allocate(pool_ptr, mm_ptr, mm_size, wait_op)`
on a given pool; `mm_ptr` is `none` for a null pointer and `some v` for a
pointer to a cell that holds `v`. -/
structure AllocCall where
  mm_ptr : Option Ptr
  mm_size : Int
  wait_op : Int

/-- The results of a sequence of `mm_pool_allocate` calls on the pool
`pool_ptr`, in order; each call starts from the state the previous one left. -/
def allocate_trace (pool_ptr : Ptr) : State → List AllocCall → List AllocResult
  | _, [] => []
  | s, c :: cs =>
    mm_pool_allocate s pool_ptr c.mm_ptr c.mm_size c.wait_op
      :: allocate_trace pool_ptr
          (mm_pool_allocate s pool_ptr c.mm_ptr c.mm_size c.wait_op).state cs

/-- The state after a sequence of `mm_pool_allocate` calls on the pool
`pool_ptr`. -/
def allocate_run (pool_ptr : Ptr) : State → List AllocCall → State
  | s, [] => s
  | s, c :: cs =>
    allocate_run pool_ptr (mm_pool_allocate s pool_ptr c.mm_ptr c.mm_size c.wait_op).state cs

/-- One operation on a pool: a call of `mm_pool_allocate` or a call of
`mm_pool_free`. -/
inductive PoolOp where
  | allocate (c : AllocCall)
  | free

/-- The state after one operation on the pool `pool_ptr`. -/
def apply_op (pool_ptr : Ptr) (s : State) : PoolOp → State
  | PoolOp.allocate c => (mm_pool_allocate s pool_ptr c.mm_ptr c.mm_size c.wait_op).state
  | PoolOp.free => mm_pool_free s

/-- The state after a sequence of `mm_pool_allocate` and `mm_pool_free` calls
on the pool `pool_ptr`. -/
def run_ops (pool_ptr : Ptr) : State → List PoolOp → State
  | s, [] => s
  | s, op :: ops => run_ops pool_ptr (apply_op pool_ptr s op) ops

/-- The pool at `p` is valid, its size is a positive `int` and a multiple of
`ALIGN_SIZE`, and its cursor lies in the pool at a multiple of `ALIGN_SIZE`. -/
def CursorOk (s : State) (p : Ptr) : Prop :=
  (s.heap p).mm_pool_start ≠ NULL ∧
  0 < (s.heap p).mm_pool_size ∧ (s.heap p).mm_pool_size ≤ INT_MAX ∧
  ALIGN_SIZE ∣ (s.heap p).mm_pool_size ∧
  0 ≤ offset (s.heap p) ∧ offset (s.heap p) ≤ (s.heap p).mm_pool_size ∧
  ALIGN_SIZE ∣ offset (s.heap p)

/-- The registry that holds the single pool of the demo: the control block at
address 1000 over the storage at 4096, linked to itself. -/
def demo_registry : State :=
  { heap := store zero_heap 1000 (fresh_block 4096 48 1000 1000), _mm_head := 1000,
    _mm_byte_count := 1 }

/-- The arguments of one call `mm_pool_create(pool_ptr, mm_size, start_address)`. -/
structure CreateCall where
  pool_ptr : Ptr
  mm_size : Int
  start_address : Ptr

/-- A sequence of `mm_pool_create` calls, in order; `none` when one of them
dereferences `NULL`. -/
def create_all : State → List CreateCall → Option State
  | s, [] => some s
  | s, c :: cs =>
    match mm_pool_create s c.pool_ptr c.mm_size c.start_address with
    | none => none
    | some t => create_all t cs

/-- The call is a successful create: its arguments pass both checks of
`mm_pool_create` (see `create_args_ok`). -/
def create_succeeds (c : CreateCall) : Bool :=
  decide (c.pool_ptr ≠ NULL) && decide (c.start_address ≠ NULL)
    && decide (0 < c.mm_size / ALIGN_SIZE * ALIGN_SIZE)

/-- The control blocks of the successful creates of a sequence, in order. -/
def registered (calls : List CreateCall) : List Ptr :=
  (calls.filter create_succeeds).map (fun c => c.pool_ptr)

/-- The link `p->next`. -/
def next_of (s : State) (p : Ptr) : Ptr := (s.heap p).next

/-- The block `y` is reached from `x` by following `next` links. -/
def Reachable (s : State) (x y : Ptr) : Prop := ∃ k : Nat, (next_of s)^[k] x = y

/-- The block `y` follows `x` in the ring: `x->next = y` and `y->prev = x`. -/
def Linked (s : State) (x y : Ptr) : Prop := (s.heap x).next = y ∧ (s.heap y).prev = x

/-- The registry of `s` is the ring of the pairwise distinct non-null blocks
`L`, from the head on: the count is the length of `L`, the head is the first
block (`NULL` for no block), each block is linked to the one after it and the
last one to the first, and every block has `mm_pool_id` 0. -/
def Ring (s : State) (L : List Ptr) : Prop :=
  L.Nodup ∧ (∀ x ∈ L, x ≠ NULL) ∧ s._mm_byte_count = (L.length : Int) ∧
  s._mm_head = L.head?.getD NULL ∧
  (∀ (i : Nat) (x y : Ptr), L[i]? = some x → L[i + 1]? = some y → Linked s x y) ∧
  (∀ x y : Ptr, L.getLast? = some x → L.head? = some y → Linked s x y) ∧
  (∀ x ∈ L, (s.heap x).mm_pool_id = 0)

/-- Two creates on distinct control blocks: the block at 1000 over the storage
at 4096 and the block at 2000 over the storage at 8192, 50 bytes each. -/
def demo_creates : List CreateCall :=
  [{ pool_ptr := 1000, mm_size := 50, start_address := 4096 },
   { pool_ptr := 2000, mm_size := 50, start_address := 8192 }]

/-- A heap in which every control block holds its own address as `mm_pool_id`
and zero elsewhere. -/
def numbered_heap : Ptr → mm_pool_s :=
  fun q => { mm_pool_id := q, mm_pool_list := NULL, mm_pool_search := NULL,
             mm_pool_start := NULL, mm_pool_size := 0, next := NULL, prev := NULL }

end MemoryPool

namespace MemoryPool

/-! ## Arithmetic of the conversions -/

theorem aligned_mm_size_eq (n : Int) (h0 : 0 ≤ n) (h1 : n ≤ 2147483644) :
    aligned_mm_size n = (n + 3) / 4 * 4 := by
  unfold aligned_mm_size toInt toSizeT ALIGN_SIZE
  omega

theorem aligned_mm_size_eq_align_up (n : Int) (h0 : 0 ≤ n) (h1 : n ≤ 2147483644) :
    aligned_mm_size n = align_up n := by
  rw [aligned_mm_size_eq n h0 h1]
  unfold align_up ALIGN_SIZE
  omega

theorem align_up_least (n : Int) : IsLeastMultiple (align_up n) n := by
  unfold IsLeastMultiple align_up ALIGN_SIZE
  refine ⟨?_, ?_, ?_⟩
  · omega
  · omega
  · intro m hm hn
    omega

/-! ## One call of `mm_pool_allocate` -/

/-- A request of at most `INT_MAX - 3` bytes on a valid pool: the call succeeds
exactly when the rounded request fits behind the cursor; on success it hands
out the old cursor and advances the cursor by the rounded request, on failure
it returns `-2`, writes `NULL` and leaves the state alone. -/
theorem allocate_in_range (s : State) (p : Ptr) (v : Ptr) (n w : Int)
    (hp : p ≠ NULL) (hstart : (s.heap p).mm_pool_start ≠ NULL)
    (hsize : 0 < (s.heap p).mm_pool_size) (hn : 0 < n) (hn1 : n ≤ 2147483644)
    (hoff : offset (s.heap p) + INT_MAX ≤ LONG_MAX) :
    ((mm_pool_allocate s p (some v) n w).status = 0
        ↔ offset (s.heap p) + align_up n ≤ (s.heap p).mm_pool_size) ∧
    (offset (s.heap p) + align_up n ≤ (s.heap p).mm_pool_size →
        (mm_pool_allocate s p (some v) n w).out = some (s.heap p).mm_pool_list ∧
        (mm_pool_allocate s p (some v) n w).state.heap
          = store s.heap p
              (set_list (s.heap p) (ptrAdd (s.heap p).mm_pool_list (align_up n))) ∧
        (mm_pool_allocate s p (some v) n w).state._mm_head = s._mm_head ∧
        (mm_pool_allocate s p (some v) n w).state._mm_byte_count = s._mm_byte_count) ∧
    (¬ offset (s.heap p) + align_up n ≤ (s.heap p).mm_pool_size →
        (mm_pool_allocate s p (some v) n w).status = -2 ∧
        (mm_pool_allocate s p (some v) n w).out = some NULL ∧
        (mm_pool_allocate s p (some v) n w).state = s) := by
  have ha := aligned_mm_size_eq_align_up n (le_of_lt hn) hn1
  have hb : 0 ≤ align_up n ∧ align_up n ≤ INT_MAX := by
    unfold align_up ALIGN_SIZE INT_MAX
    omega
  have hl : toLong (offset (s.heap p) + align_up n) = offset (s.heap p) + align_up n := by
    have h1 : -9223372036854775808 ≤ offset (s.heap p) := by
      unfold offset ptrDiff toLong
      omega
    unfold LONG_MAX at hoff
    unfold toLong
    omega
  have hc : ¬ (p = NULL ∨ (some v : Option Ptr) = none ∨ n ≤ 0) := by
    simp [hp, not_le.mpr hn]
  have hd : ¬ ((s.heap p).mm_pool_start = NULL ∨ (s.heap p).mm_pool_size ≤ 0) := by
    simp [hstart, not_le.mpr hsize]
  unfold offset at hl
  by_cases hfit : offset (s.heap p) + align_up n ≤ (s.heap p).mm_pool_size
  · have hgt : ¬ (ptrDiff (s.heap p).mm_pool_list (s.heap p).mm_pool_start + align_up n
        > (s.heap p).mm_pool_size) := by
      unfold offset at hfit
      omega
    simp only [mm_pool_allocate, if_neg hc, if_neg hd, ha, hl, if_neg hgt, hfit]
    simp
  · have hgt : ptrDiff (s.heap p).mm_pool_list (s.heap p).mm_pool_start + align_up n
        > (s.heap p).mm_pool_size := by
      unfold offset at hfit
      omega
    simp only [mm_pool_allocate, if_neg hc, if_neg hd, ha, hl, if_pos hgt, hfit]
    simp

/-- C1: on the pool created over a 50-byte buffer (size 48, cursor at the
start), a request of `INT_MAX` bytes does not fit, its rounded size `2^31`
exceeding the pool, and yet `mm_pool_allocate` returns `0`, hands out the old
cursor and moves the cursor back by `2^31` bytes instead of forward. -/
theorem allocate_INT_MAX_returns_zero :
    ∃ s : State, mm_pool_create (initial zero_heap) 1000 50 4096 = some s ∧
      (s.heap 1000).mm_pool_start ≠ NULL ∧ 0 < (s.heap 1000).mm_pool_size ∧
      ¬ (offset (s.heap 1000) + align_up 2147483647 ≤ (s.heap 1000).mm_pool_size) ∧
      (mm_pool_allocate s 1000 (some NULL) 2147483647 0).status = 0 ∧
      (mm_pool_allocate s 1000 (some NULL) 2147483647 0).out = some 4096 ∧
      offset ((mm_pool_allocate s 1000 (some NULL) 2147483647 0).state.heap 1000)
        = -2147483648 := by
  refine ⟨_, rfl, ?_⟩
  decide

/-- C2: after `mm_pool_create` over a 50-byte buffer at address 4096, the
requests of `INT_MAX` bytes and of 4 bytes both succeed, and the second block
starts `2^31` bytes before the pool (address `2^64 - 2^31 + 4096`): it does
not lie inside `[start, start + size)`. -/
theorem allocate_block_outside_pool :
    ∃ s : State, mm_pool_create (initial zero_heap) 1000 50 4096 = some s ∧
      (allocate_all 1000 s [2147483647, 4]).2
        = [{ addr := 4096, len := -2147483648 }, { addr := 18446744071562072064, len := 4 }] ∧
      (s.heap 1000).mm_pool_start = 4096 ∧ (s.heap 1000).mm_pool_size = 48 ∧
      ¬ Inside (s.heap 1000).mm_pool_start (s.heap 1000).mm_pool_size
          { addr := 18446744071562072064, len := 4 } := by
  refine ⟨_, rfl, by decide, by decide, by decide, ?_⟩
  unfold Inside
  decide

/-- C3: on the demo pool with the cursor at offset 40 of 48, a request of
`INT_MAX - 1` bytes does not fit, and yet `mm_pool_allocate` does not return
`-2`, does not write `NULL`, and moves the cursor. -/
theorem allocate_oversized_not_rejected :
    ∃ s : State, mm_pool_create (initial zero_heap) 1000 50 4096 = some s ∧
      ∃ t : State, t = (mm_pool_allocate (mm_pool_allocate s 1000 (some NULL) 10 0).state
        1000 (some NULL) 25 0).state ∧
      (t.heap 1000).mm_pool_start ≠ NULL ∧ 0 < (t.heap 1000).mm_pool_size ∧
      offset (t.heap 1000) = 40 ∧
      offset (t.heap 1000) + align_up 2147483646 > (t.heap 1000).mm_pool_size ∧
      (mm_pool_allocate t 1000 (some NULL) 2147483646 0).status = 0 ∧
      (mm_pool_allocate t 1000 (some NULL) 2147483646 0).out = some 4136 ∧
      ((mm_pool_allocate t 1000 (some NULL) 2147483646 0).state.heap 1000).mm_pool_list
        ≠ (t.heap 1000).mm_pool_list := by
  refine ⟨_, rfl, _, rfl, ?_⟩
  decide

/-- C4: a request of `mm_size <= 0` bytes fails with `-1` on every state and
for every pool pointer and output cell, changes neither the state nor the
cell, and does so again however many times the call is repeated. -/
theorem allocate_nonpositive_rejected (s : State) (pool_ptr : Ptr) (mm_ptr : Option Ptr)
    (mm_size wait_op : Int) (h : mm_size ≤ 0) (k : Nat) :
    allocate_repeat pool_ptr mm_size wait_op k (s, mm_ptr) = (s, mm_ptr) ∧
    (mm_pool_allocate (allocate_repeat pool_ptr mm_size wait_op k (s, mm_ptr)).1 pool_ptr
      (allocate_repeat pool_ptr mm_size wait_op k (s, mm_ptr)).2 mm_size wait_op).status = -1 ∧
    (mm_pool_allocate (allocate_repeat pool_ptr mm_size wait_op k (s, mm_ptr)).1 pool_ptr
      (allocate_repeat pool_ptr mm_size wait_op k (s, mm_ptr)).2 mm_size wait_op).state = s ∧
    (mm_pool_allocate (allocate_repeat pool_ptr mm_size wait_op k (s, mm_ptr)).1 pool_ptr
      (allocate_repeat pool_ptr mm_size wait_op k (s, mm_ptr)).2 mm_size wait_op).out
        = mm_ptr := by
  have hone : ∀ (t : State) (o : Option Ptr),
      mm_pool_allocate t pool_ptr o mm_size wait_op = { status := -1, state := t, out := o } := by
    intro t o
    simp [mm_pool_allocate, h]
  have hrep : allocate_repeat pool_ptr mm_size wait_op k (s, mm_ptr) = (s, mm_ptr) := by
    induction k with
    | zero => rfl
    | succ j ih => simp [allocate_repeat, ih, hone]
  rw [hrep]
  simp [hone]

theorem allocate_nonpositive_rejected_witness :
    (-5 : Int) ≤ 0 ∧
    allocate_repeat 1000 (-5) 0 3 (initial zero_heap, some 7)
      = (initial zero_heap, some 7) ∧
    (mm_pool_allocate (allocate_repeat 1000 (-5) 0 3 (initial zero_heap, some 7)).1 1000
      (allocate_repeat 1000 (-5) 0 3 (initial zero_heap, some 7)).2 (-5) 0).status = -1 ∧
    (mm_pool_allocate (allocate_repeat 1000 (-5) 0 3 (initial zero_heap, some 7)).1 1000
      (allocate_repeat 1000 (-5) 0 3 (initial zero_heap, some 7)).2 (-5) 0).state
        = initial zero_heap ∧
    (mm_pool_allocate (allocate_repeat 1000 (-5) 0 3 (initial zero_heap, some 7)).1 1000
      (allocate_repeat 1000 (-5) 0 3 (initial zero_heap, some 7)).2 (-5) 0).out
        = some 7 :=
  ⟨by decide,
    allocate_nonpositive_rejected (initial zero_heap) 1000 (some 7) (-5) 0 (by decide) 3⟩

/-- C5: on a pool whose `mm_pool_start` is `NULL` or whose `mm_pool_size` is
`<= 0`, `mm_pool_allocate` returns `-1` for every request size and changes
neither the state (so no field of the pool) nor the caller's cell `*mm_ptr`. -/
theorem allocate_invalid_pool_rejected (s : State) (pool_ptr : Ptr) (mm_ptr : Option Ptr)
    (mm_size wait_op : Int)
    (h : (s.heap pool_ptr).mm_pool_start = NULL ∨ (s.heap pool_ptr).mm_pool_size ≤ 0) :
    (mm_pool_allocate s pool_ptr mm_ptr mm_size wait_op).status = -1 ∧
    (mm_pool_allocate s pool_ptr mm_ptr mm_size wait_op).state = s ∧
    (mm_pool_allocate s pool_ptr mm_ptr mm_size wait_op).out = mm_ptr := by
  unfold mm_pool_allocate
  by_cases hc : pool_ptr = NULL ∨ mm_ptr = none ∨ mm_size ≤ 0
  · simp only [if_pos hc]
    exact ⟨trivial, trivial, trivial⟩
  · simp only [if_neg hc, if_pos h]
    exact ⟨trivial, trivial, trivial⟩

theorem allocate_invalid_pool_rejected_witness :
    ((initial zero_heap).heap 1000).mm_pool_start = NULL ∧
    (mm_pool_allocate (initial zero_heap) 1000 (some 7) 16 0).status = -1 ∧
    (mm_pool_allocate (initial zero_heap) 1000 (some 7) 16 0).state
      = initial zero_heap ∧
    (mm_pool_allocate (initial zero_heap) 1000 (some 7) 16 0).out = some 7 :=
  ⟨by decide,
    allocate_invalid_pool_rejected (initial zero_heap) 1000 (some 7) 16 0 (Or.inl (by decide))⟩

theorem offset_ptrAdd (pool : mm_pool_s) (k : Int) :
    offset (set_list pool (ptrAdd pool.mm_pool_list k)) = toLong (offset pool + k) := by
  unfold offset ptrDiff ptrAdd toLong set_list
  simp only
  omega

/-- C6 as stated fails: for a request of `INT_MAX` bytes the value stored in
`aligned_mm_size` is `INT_MIN`, which is below the request. -/
theorem aligned_mm_size_not_least_at_INT_MAX :
    ¬ (∀ n : Int, 0 ≤ n → n ≤ INT_MAX → IsLeastMultiple (aligned_mm_size n) n) := by
  intro h
  have h1 := (h 2147483647 (by decide) (by decide)).2.1
  revert h1
  decide

/-- C6, amended: for every request with `0 <= mm_size <= INT_MAX - 3` the
value stored in `aligned_mm_size` is the smallest multiple of `ALIGN_SIZE`
that is `>= mm_size`. -/
theorem aligned_mm_size_least (n : Int) (h0 : 0 ≤ n) (h1 : n ≤ INT_MAX - 3) :
    IsLeastMultiple (aligned_mm_size n) n := by
  have h2 : n ≤ 2147483644 := by
    unfold INT_MAX at h1
    omega
  rw [aligned_mm_size_eq_align_up n h0 h2]
  exact align_up_least n

theorem aligned_mm_size_least_witness :
    (0 : Int) ≤ 10 ∧ (10 : Int) ≤ INT_MAX - 3 ∧ IsLeastMultiple (aligned_mm_size 10) 10 :=
  ⟨by decide, by decide, aligned_mm_size_least 10 (by decide) (by decide)⟩

/-! ## Field-wise reading of the heap updates -/

theorem store_apply (h : Ptr → mm_pool_s) (p q : Ptr) (v : mm_pool_s) :
    store h p v q = if q = p then v else h q := rfl

@[simp] theorem set_list_fields (v : mm_pool_s) (x : Ptr) :
    (set_list v x).mm_pool_id = v.mm_pool_id ∧ (set_list v x).mm_pool_list = x ∧
    (set_list v x).mm_pool_search = v.mm_pool_search ∧
    (set_list v x).mm_pool_start = v.mm_pool_start ∧
    (set_list v x).mm_pool_size = v.mm_pool_size ∧
    (set_list v x).next = v.next ∧ (set_list v x).prev = v.prev :=
  ⟨rfl, rfl, rfl, rfl, rfl, rfl, rfl⟩

@[simp] theorem set_search_fields (v : mm_pool_s) (x : Ptr) :
    (set_search v x).mm_pool_id = v.mm_pool_id ∧ (set_search v x).mm_pool_list = v.mm_pool_list ∧
    (set_search v x).mm_pool_search = x ∧
    (set_search v x).mm_pool_start = v.mm_pool_start ∧
    (set_search v x).mm_pool_size = v.mm_pool_size ∧
    (set_search v x).next = v.next ∧ (set_search v x).prev = v.prev :=
  ⟨rfl, rfl, rfl, rfl, rfl, rfl, rfl⟩

@[simp] theorem set_start_fields (v : mm_pool_s) (x : Ptr) :
    (set_start v x).mm_pool_id = v.mm_pool_id ∧ (set_start v x).mm_pool_list = v.mm_pool_list ∧
    (set_start v x).mm_pool_search = v.mm_pool_search ∧
    (set_start v x).mm_pool_start = x ∧
    (set_start v x).mm_pool_size = v.mm_pool_size ∧
    (set_start v x).next = v.next ∧ (set_start v x).prev = v.prev :=
  ⟨rfl, rfl, rfl, rfl, rfl, rfl, rfl⟩

@[simp] theorem set_size_fields (v : mm_pool_s) (x : Int) :
    (set_size v x).mm_pool_id = v.mm_pool_id ∧ (set_size v x).mm_pool_list = v.mm_pool_list ∧
    (set_size v x).mm_pool_search = v.mm_pool_search ∧
    (set_size v x).mm_pool_start = v.mm_pool_start ∧
    (set_size v x).mm_pool_size = x ∧
    (set_size v x).next = v.next ∧ (set_size v x).prev = v.prev :=
  ⟨rfl, rfl, rfl, rfl, rfl, rfl, rfl⟩

@[simp] theorem set_next_fields (v : mm_pool_s) (x : Ptr) :
    (set_next v x).mm_pool_id = v.mm_pool_id ∧ (set_next v x).mm_pool_list = v.mm_pool_list ∧
    (set_next v x).mm_pool_search = v.mm_pool_search ∧
    (set_next v x).mm_pool_start = v.mm_pool_start ∧
    (set_next v x).mm_pool_size = v.mm_pool_size ∧
    (set_next v x).next = x ∧ (set_next v x).prev = v.prev :=
  ⟨rfl, rfl, rfl, rfl, rfl, rfl, rfl⟩

@[simp] theorem set_prev_fields (v : mm_pool_s) (x : Ptr) :
    (set_prev v x).mm_pool_id = v.mm_pool_id ∧ (set_prev v x).mm_pool_list = v.mm_pool_list ∧
    (set_prev v x).mm_pool_search = v.mm_pool_search ∧
    (set_prev v x).mm_pool_start = v.mm_pool_start ∧
    (set_prev v x).mm_pool_size = v.mm_pool_size ∧
    (set_prev v x).next = v.next ∧ (set_prev v x).prev = x :=
  ⟨rfl, rfl, rfl, rfl, rfl, rfl, rfl⟩

@[simp] theorem zeroed_fields :
    zeroed.mm_pool_id = 0 ∧ zeroed.mm_pool_list = NULL ∧ zeroed.mm_pool_search = NULL ∧
    zeroed.mm_pool_start = NULL ∧ zeroed.mm_pool_size = 0 ∧ zeroed.next = NULL ∧
    zeroed.prev = NULL :=
  ⟨rfl, rfl, rfl, rfl, rfl, rfl, rfl⟩

/-! ## `mm_pool_create` in normal form -/


@[simp] theorem store_at (h : Ptr → mm_pool_s) (p : Ptr) (v : mm_pool_s) : store h p v p = v := by
  simp [store]

@[simp] theorem store_store (h : Ptr → mm_pool_s) (p : Ptr) (v w : mm_pool_s) :
    store (store h p v) p w = store h p w := by
  funext q
  simp only [store]
  split_ifs <;> rfl

theorem create_rejected (s : State) (p : Ptr) (n : Int) (a : Ptr)
    (hg : a = NULL ∨ p = NULL ∨ n ≤ 0) : mm_pool_create s p n a = some s := by
  unfold mm_pool_create
  rw [if_pos hg]

theorem create_too_small (s : State) (p : Ptr) (n : Int) (a : Ptr)
    (hg : ¬ (a = NULL ∨ p = NULL ∨ n ≤ 0)) (hm : rounded_size n = 0) :
    mm_pool_create s p n a = some { s with heap := store s.heap p zeroed } := by
  unfold mm_pool_create
  simp only [if_neg hg, if_pos hm]

theorem create_first (s : State) (p : Ptr) (n : Int) (a : Ptr)
    (hg : ¬ (a = NULL ∨ p = NULL ∨ n ≤ 0)) (hm : rounded_size n ≠ 0)
    (hc : s._mm_byte_count = 0) :
    mm_pool_create s p n a
      = some { heap := store s.heap p (fresh_block a (rounded_size n) p p), _mm_head := p,
               _mm_byte_count := toInt (s._mm_byte_count + 1) } := by
  unfold mm_pool_create
  simp only [if_neg hg, if_neg hm, if_pos hc, store_at, store_store, set_start_fields,
    set_size_fields]
  rfl

theorem create_fault (s : State) (p : Ptr) (n : Int) (a : Ptr)
    (hg : ¬ (a = NULL ∨ p = NULL ∨ n ≤ 0)) (hm : rounded_size n ≠ 0)
    (hc : s._mm_byte_count ≠ 0)
    (hf : s._mm_head = NULL ∨ s._mm_head = p ∨ (s.heap s._mm_head).prev = NULL) :
    mm_pool_create s p n a = none := by
  unfold mm_pool_create
  simp only [if_neg hg, if_neg hm, if_neg hc, store_at, store_store]
  by_cases hh : s._mm_head = NULL
  · rw [if_pos hh]
  · rw [if_neg hh]
    have hq : (store s.heap p (set_search (set_list (set_size (set_start zeroed a)
        (rounded_size n)) (set_size (set_start zeroed a) (rounded_size n)).mm_pool_start)
        (set_list (set_size (set_start zeroed a) (rounded_size n))
          (set_size (set_start zeroed a) (rounded_size n)).mm_pool_start).mm_pool_start)
        s._mm_head).prev = NULL := by
      rcases hf with h | h | h
      · exact absurd h hh
      · rw [h, store_at]
        rfl
      · by_cases e : s._mm_head = p
        · rw [e, store_at]
          rfl
        · rw [store_apply, if_neg e]
          exact h
    rw [if_pos hq]

theorem create_next (s : State) (p : Ptr) (n : Int) (a : Ptr)
    (hg : ¬ (a = NULL ∨ p = NULL ∨ n ≤ 0)) (hm : rounded_size n ≠ 0)
    (hc : s._mm_byte_count ≠ 0) (hh : s._mm_head ≠ NULL) (hne : s._mm_head ≠ p)
    (hq : (s.heap s._mm_head).prev ≠ NULL) :
    mm_pool_create s p n a
      = some
          { heap := store
              (store (store s.heap p (fresh_block a (rounded_size n) s._mm_head
                  (s.heap s._mm_head).prev))
                s._mm_head (set_prev (s.heap s._mm_head) p))
              (s.heap s._mm_head).prev
              (set_next (store (store s.heap p (fresh_block a (rounded_size n) s._mm_head
                  (s.heap s._mm_head).prev))
                s._mm_head (set_prev (s.heap s._mm_head) p) (s.heap s._mm_head).prev) p),
            _mm_head := s._mm_head,
            _mm_byte_count := toInt (s._mm_byte_count + 1) } := by
  unfold mm_pool_create
  simp only [if_neg hg, if_neg hm, if_neg hc, if_neg hh, store_at, store_store]
  have e1 : ∀ v : mm_pool_s, store s.heap p v s._mm_head = s.heap s._mm_head := by
    intro v
    rw [store_apply, if_neg hne]
  simp only [e1, if_neg hq]
  rfl


theorem rounded_size_eq (n : Int) (h0 : 0 < n) (h1 : n ≤ INT_MAX) :
    rounded_size n = n / 4 * 4 := by
  unfold INT_MAX at h1
  unfold rounded_size toInt toSizeT ALIGN_SIZE
  omega

theorem create_cases (s : State) (p : Ptr) (n : Int) (a : Ptr) (t : State)
    (ht : mm_pool_create s p n a = some t) :
    ((a = NULL ∨ p = NULL ∨ n ≤ 0) ∧ t = s) ∨
    (¬ (a = NULL ∨ p = NULL ∨ n ≤ 0) ∧ rounded_size n = 0 ∧
      t = { s with heap := store s.heap p zeroed }) ∨
    (¬ (a = NULL ∨ p = NULL ∨ n ≤ 0) ∧ rounded_size n ≠ 0 ∧ s._mm_byte_count = 0 ∧
      t = { heap := store s.heap p (fresh_block a (rounded_size n) p p), _mm_head := p,
            _mm_byte_count := toInt (s._mm_byte_count + 1) }) ∨
    (¬ (a = NULL ∨ p = NULL ∨ n ≤ 0) ∧ rounded_size n ≠ 0 ∧ s._mm_byte_count ≠ 0 ∧
      s._mm_head ≠ NULL ∧ s._mm_head ≠ p ∧ (s.heap s._mm_head).prev ≠ NULL ∧
      t = { heap := store
              (store (store s.heap p (fresh_block a (rounded_size n) s._mm_head
                  (s.heap s._mm_head).prev))
                s._mm_head (set_prev (s.heap s._mm_head) p))
              (s.heap s._mm_head).prev
              (set_next (store (store s.heap p (fresh_block a (rounded_size n) s._mm_head
                  (s.heap s._mm_head).prev))
                s._mm_head (set_prev (s.heap s._mm_head) p) (s.heap s._mm_head).prev) p),
            _mm_head := s._mm_head,
            _mm_byte_count := toInt (s._mm_byte_count + 1) }) := by
  by_cases hg : a = NULL ∨ p = NULL ∨ n ≤ 0
  · rw [create_rejected s p n a hg] at ht
    exact Or.inl ⟨hg, (Option.some.inj ht).symm⟩
  · by_cases hm : rounded_size n = 0
    · rw [create_too_small s p n a hg hm] at ht
      exact Or.inr (Or.inl ⟨hg, hm, (Option.some.inj ht).symm⟩)
    · by_cases hc : s._mm_byte_count = 0
      · rw [create_first s p n a hg hm hc] at ht
        exact Or.inr (Or.inr (Or.inl ⟨hg, hm, hc, (Option.some.inj ht).symm⟩))
      · by_cases hf : s._mm_head = NULL ∨ s._mm_head = p ∨ (s.heap s._mm_head).prev = NULL
        · rw [create_fault s p n a hg hm hc hf] at ht
          cases ht
        · have hh : s._mm_head ≠ NULL := fun h => hf (Or.inl h)
          have hne : s._mm_head ≠ p := fun h => hf (Or.inr (Or.inl h))
          have hq : (s.heap s._mm_head).prev ≠ NULL := fun h => hf (Or.inr (Or.inr h))
          rw [create_next s p n a hg hm hc hh hne hq] at ht
          exact Or.inr (Or.inr (Or.inr ⟨hg, hm, hc, hh, hne, hq, (Option.some.inj ht).symm⟩))

theorem create_returns (s : State) (p : Ptr) (n : Int) (a : Ptr)
    (h : ¬ (a = NULL ∨ p = NULL ∨ n ≤ 0) → rounded_size n ≠ 0 → RegistryReady s p) :
    ∃ t : State, mm_pool_create s p n a = some t := by
  by_cases hg : a = NULL ∨ p = NULL ∨ n ≤ 0
  · exact ⟨_, create_rejected s p n a hg⟩
  · by_cases hm : rounded_size n = 0
    · exact ⟨_, create_too_small s p n a hg hm⟩
    · by_cases hc : s._mm_byte_count = 0
      · exact ⟨_, create_first s p n a hg hm hc⟩
      · rcases h hg hm with h0 | ⟨hh, hne, hq⟩
        · exact absurd h0 hc
        · exact ⟨_, create_next s p n a hg hm hc hh hne hq⟩

theorem store_keeps_size (h : Ptr → mm_pool_s) (p q : Ptr) (v : mm_pool_s)
    (hv : v.mm_pool_size = (h p).mm_pool_size) :
    (store h p v q).mm_pool_size = (h q).mm_pool_size := by
  rw [store_apply]
  split_ifs with e
  · rw [hv, e]
  · rfl

theorem created_size (s : State) (p : Ptr) (n : Int) (a : Ptr) (t : State)
    (hp : p ≠ NULL) (ha : a ≠ NULL) (h0 : 0 < n)
    (ht : mm_pool_create s p n a = some t) :
    (t.heap p).mm_pool_size = rounded_size n := by
  have hg : ¬ (a = NULL ∨ p = NULL ∨ n ≤ 0) := by
    simp [hp, ha, not_le.mpr h0]
  rcases create_cases s p n a t ht with ⟨h, _⟩ | ⟨_, hm, e⟩ | ⟨_, _, _, e⟩ |
    ⟨_, _, _, _, hne, _, e⟩
  · exact absurd h hg
  · rw [e, hm]
    simp
  · rw [e]
    simp [fresh_block]
  · rw [e]
    dsimp only
    refine (store_keeps_size _ _ _ _ ?_).trans ?_
    · rfl
    refine (store_keeps_size _ _ _ _ ?_).trans ?_
    · rw [store_apply, if_neg hne]
      rfl
    · rw [store_at]
      rfl

/-- C7: for a non-null control block, non-null storage and a size `> 0`,
every state that `mm_pool_create` returns holds a `mm_pool_size` that is a
multiple of `ALIGN_SIZE`, is `<=` the requested size and is the requested size
rounded down to a multiple of `ALIGN_SIZE` (the largest such multiple); and the
call does return, whenever the size is below `ALIGN_SIZE` or the registry can
take the block. -/
theorem create_size_rounded_down (s : State) (pool_ptr : Ptr) (mm_size : Int)
    (start_address : Ptr) (hp : pool_ptr ≠ NULL) (ha : start_address ≠ NULL)
    (h0 : 0 < mm_size) (h1 : mm_size ≤ INT_MAX) :
    (∀ t : State, mm_pool_create s pool_ptr mm_size start_address = some t →
      ALIGN_SIZE ∣ (t.heap pool_ptr).mm_pool_size ∧
      (t.heap pool_ptr).mm_pool_size ≤ mm_size ∧
      (t.heap pool_ptr).mm_pool_size = mm_size / ALIGN_SIZE * ALIGN_SIZE ∧
      ∀ m : Int, ALIGN_SIZE ∣ m → m ≤ mm_size → m ≤ (t.heap pool_ptr).mm_pool_size) ∧
    ((4 ≤ mm_size → RegistryReady s pool_ptr) →
      ∃ t : State, mm_pool_create s pool_ptr mm_size start_address = some t) := by
  constructor
  · intro t ht
    rw [created_size s pool_ptr mm_size start_address t hp ha h0 ht,
      rounded_size_eq mm_size h0 h1]
    unfold ALIGN_SIZE
    refine ⟨?_, ?_, rfl, ?_⟩
    · omega
    · omega
    · intro m hm hle
      omega
  · intro hready
    refine create_returns s pool_ptr mm_size start_address (fun _ hm => hready ?_)
    rw [rounded_size_eq mm_size h0 h1] at hm
    omega

theorem create_size_rounded_down_witness :
    (1000 : Ptr) ≠ NULL ∧ (4096 : Ptr) ≠ NULL ∧ (0 : Int) < 50 ∧ (50 : Int) ≤ INT_MAX ∧
    (∀ t : State, mm_pool_create (initial zero_heap) 1000 50 4096 = some t →
      ALIGN_SIZE ∣ (t.heap 1000).mm_pool_size ∧
      (t.heap 1000).mm_pool_size ≤ 50 ∧
      (t.heap 1000).mm_pool_size = 50 / ALIGN_SIZE * ALIGN_SIZE ∧
      ∀ m : Int, ALIGN_SIZE ∣ m → m ≤ 50 → m ≤ (t.heap 1000).mm_pool_size) ∧
    (((4 : Int) ≤ 50 → RegistryReady (initial zero_heap) 1000) →
      ∃ t : State, mm_pool_create (initial zero_heap) 1000 50 4096 = some t) :=
  ⟨by decide, by decide, by decide, by decide,
    create_size_rounded_down (initial zero_heap) 1000 50 4096 (by decide) (by decide)
      (by decide) (by decide)⟩

theorem store_keeps_prev (h : Ptr → mm_pool_s) (p q : Ptr) (v : mm_pool_s)
    (hv : v.prev = (h p).prev) : (store h p v q).prev = (h q).prev := by
  rw [store_apply]
  split_ifs with e
  · rw [hv, e]
  · rfl

theorem args_ok_iff (p : Ptr) (n : Int) (a : Ptr) (h0 : INT_MIN ≤ n) (h1 : n ≤ INT_MAX) :
    create_args_ok p n a ↔ (¬ (a = NULL ∨ p = NULL ∨ n ≤ 0) ∧ rounded_size n ≠ 0) := by
  unfold create_args_ok ALIGN_SIZE
  constructor
  · rintro ⟨hp, ha, hpos⟩
    have hn : 0 < n := by omega
    rw [rounded_size_eq n hn h1]
    refine ⟨?_, by omega⟩
    simp [hp, ha, not_le.mpr hn]
  · rintro ⟨hg, hm⟩
    have hn : 0 < n := by
      by_contra hcon
      exact hg (Or.inr (Or.inr (not_lt.mp hcon)))
    rw [rounded_size_eq n hn h1] at hm
    refine ⟨fun e => hg (Or.inr (Or.inl e)), fun e => hg (Or.inl e), ?_⟩
    omega

theorem toInt_succ (c : Int) (h0 : INT_MIN ≤ c) (h1 : c < INT_MAX) : toInt (c + 1) = c + 1 := by
  unfold INT_MIN at h0
  unfold INT_MAX at h1
  unfold toInt
  omega

/-- C9: after a successful `mm_pool_create` of the block at address 1000, a
second call on the same block with size 3 fails (the rounded size is 0, the
pool count stays 1) and yet leaves the block all zero: its start, size, cursor
and both registry links are lost, while `_mm_head` still points at it. -/
theorem create_too_small_zeroes_block :
    ∃ s : State, mm_pool_create (initial zero_heap) 1000 50 4096 = some s ∧
      s.heap 1000 = fresh_block 4096 48 1000 1000 ∧
      ∃ t : State, mm_pool_create s 1000 3 4096 = some t ∧
        t._mm_byte_count = s._mm_byte_count ∧ t._mm_head = 1000 ∧
        t.heap 1000 = zeroed ∧ t.heap 1000 ≠ s.heap 1000 := by
  refine ⟨_, rfl, by decide, _, rfl, ?_⟩
  decide



theorem allocate_fits (s : State) (p : Ptr) (v : Ptr) (n w : Int)
    (hp : p ≠ NULL) (hstart : (s.heap p).mm_pool_start ≠ NULL)
    (hsize : 0 < (s.heap p).mm_pool_size) (hn : 0 < n) (hn1 : n ≤ 2147483644)
    (hoff : offset (s.heap p) + INT_MAX ≤ LONG_MAX)
    (hfit : offset (s.heap p) + align_up n ≤ (s.heap p).mm_pool_size) :
    (mm_pool_allocate s p (some v) n w).status = 0 ∧
    (mm_pool_allocate s p (some v) n w).out = some (s.heap p).mm_pool_list ∧
    offset ((mm_pool_allocate s p (some v) n w).state.heap p) = offset (s.heap p) + align_up n ∧
    ((mm_pool_allocate s p (some v) n w).state.heap p).mm_pool_start
      = (s.heap p).mm_pool_start ∧
    ((mm_pool_allocate s p (some v) n w).state.heap p).mm_pool_size
      = (s.heap p).mm_pool_size := by
  obtain ⟨h1, h2, _⟩ := allocate_in_range s p v n w hp hstart hsize hn hn1 hoff
  obtain ⟨h3, h4, _, _⟩ := h2 hfit
  refine ⟨h1.mpr hfit, h3, ?_, ?_, ?_⟩
  · rw [h4, store_at, offset_ptrAdd]
    have hlow : -9223372036854775808 ≤ offset (s.heap p) := by
      unfold offset ptrDiff toLong
      omega
    have hb : 0 ≤ align_up n ∧ align_up n ≤ INT_MAX := by
      unfold align_up ALIGN_SIZE INT_MAX
      omega
    unfold LONG_MAX at hoff
    unfold toLong
    omega
  · rw [h4, store_at]
    rfl
  · rw [h4, store_at]
    rfl

theorem demo_steps (s0 : State) (p buf : Ptr) (hp : p ≠ NULL) (hs : buf ≠ NULL)
    (st0 : (s0.heap p).mm_pool_start = buf) (sz0 : (s0.heap p).mm_pool_size = 48)
    (of0 : offset (s0.heap p) = 0) :
    (mm_pool_allocate s0 p (some NULL) 10 0).status = 0 ∧
    ptrDiff ((mm_pool_allocate s0 p (some NULL) 10 0).out.getD NULL) buf = 0 ∧
    offset ((mm_pool_allocate s0 p (some NULL) 10 0).state.heap p) = 12 ∧
    (mm_pool_allocate (mm_pool_allocate s0 p (some NULL) 10 0).state p (some NULL) 25 0).status
      = 0 ∧
    ptrDiff ((mm_pool_allocate (mm_pool_allocate s0 p (some NULL) 10 0).state p (some NULL)
      25 0).out.getD NULL) buf = 12 ∧
    offset ((mm_pool_allocate (mm_pool_allocate s0 p (some NULL) 10 0).state p (some NULL)
      25 0).state.heap p) = 40 ∧
    (mm_pool_allocate (mm_pool_allocate (mm_pool_allocate s0 p (some NULL) 10 0).state p
      (some NULL) 25 0).state p (some NULL) 20 0).status = -2 ∧
    (mm_pool_allocate (mm_pool_allocate (mm_pool_allocate s0 p (some NULL) 10 0).state p
      (some NULL) 25 0).state p (some NULL) 20 0).out.getD NULL = NULL ∧
    offset ((mm_pool_allocate (mm_pool_allocate (mm_pool_allocate s0 p (some NULL) 10 0).state p
      (some NULL) 25 0).state p (some NULL) 20 0).state.heap p) = 40 := by
  have au10 : align_up 10 = 12 := by decide
  have au25 : align_up 25 = 28 := by decide
  have au20 : align_up 20 = 20 := by decide
  obtain ⟨a1, a2, a3, a4, a5⟩ := allocate_fits s0 p NULL 10 0 hp
    (by rw [st0]; exact hs) (by rw [sz0]; decide) (by decide) (by decide)
    (by rw [of0]; decide) (by rw [of0, sz0, au10]; decide)
  generalize mm_pool_allocate s0 p (some NULL) 10 0 = r1 at a1 a2 a3 a4 a5 ⊢
  rw [of0, au10] at a3
  rw [st0] at a4
  rw [sz0] at a5
  obtain ⟨c1, c2, c3, c4, c5⟩ := allocate_fits r1.state p NULL 25 0 hp
    (by rw [a4]; exact hs) (by rw [a5]; decide) (by decide) (by decide)
    (by rw [a3]; decide) (by rw [a3, a5, au25]; decide)
  generalize mm_pool_allocate r1.state p (some NULL) 25 0 = r2 at c1 c2 c3 c4 c5 ⊢
  rw [a3, au25] at c3
  rw [a4] at c4
  rw [a5] at c5
  obtain ⟨_, _, d3⟩ := allocate_in_range r2.state p NULL 20 0 hp
    (by rw [c4]; exact hs) (by rw [c5]; decide) (by decide) (by decide)
    (by rw [c3]; decide)
  obtain ⟨e1, e2, e3⟩ := d3 (by rw [c3, c5, au20]; decide)
  generalize mm_pool_allocate r2.state p (some NULL) 20 0 = r3 at e1 e2 e3 ⊢
  rw [e3, a2, c2, e2, e1, a1, c1, a3, c3]
  refine ⟨rfl, ?_, rfl, rfl, ?_, rfl, rfl, rfl, rfl⟩
  · have : ptrDiff (s0.heap p).mm_pool_list buf = 0 := by
      rw [← st0]
      exact of0
    exact this
  · have : ptrDiff (r1.state.heap p).mm_pool_list buf = 12 := by
      rw [← a4]
      exact a3
    exact this

/-- C10: the demo of `main`: after `mm_pool_create` over the 50-byte buffer,
`allocate(10)` returns 0 with the block at offset 0 and the cursor at 12,
`allocate(25)` returns 0 with the block at offset 12 and the cursor at 40, and
`allocate(20)` returns `-2`, writes `NULL` and leaves the cursor at 40. -/
theorem main_demo (h : Ptr → mm_pool_s) (my_pool_block test_space : Ptr)
    (hb : my_pool_block ≠ NULL) (hs : test_space ≠ NULL) :
    ∃ t : DemoTrace, main h my_pool_block test_space = some t ∧
      t.start = test_space ∧ t.offset0 = 0 ∧
      t.status1 = 0 ∧ ptrDiff t.ptr1 t.start = 0 ∧ t.offset1 = 12 ∧
      t.status2 = 0 ∧ ptrDiff t.ptr2 t.start = 12 ∧ t.offset2 = 40 ∧
      t.status3 = -2 ∧ t.ptr3 = NULL ∧ t.offset3 = 40 := by
  have hg : ¬ (test_space = NULL ∨ my_pool_block = NULL ∨ (50 : Int) ≤ 0) := by
    simp [hb, hs]
  have hr : rounded_size 50 = 48 := by decide
  have hcreate := create_first (initial h) my_pool_block 50 test_space hg (by rw [hr]; decide) rfl
  rw [hr] at hcreate
  unfold main
  rw [hcreate]
  refine ⟨_, rfl, ?_⟩
  dsimp only
  have st0 : (store (initial h).heap my_pool_block
      (fresh_block test_space 48 my_pool_block my_pool_block) my_pool_block).mm_pool_start
      = test_space := by
    rw [store_at]
    rfl
  have of0 : offset (store (initial h).heap my_pool_block
      (fresh_block test_space 48 my_pool_block my_pool_block) my_pool_block) = 0 := by
    rw [store_at]
    unfold offset ptrDiff toLong fresh_block
    simp
  refine ⟨st0, of0, ?_⟩
  rw [st0]
  exact demo_steps _ my_pool_block test_space hb hs st0
    (by dsimp only; rw [store_at]; rfl) of0

theorem main_demo_witness :
    (1000 : Ptr) ≠ NULL ∧ (4096 : Ptr) ≠ NULL ∧
    ∃ t : DemoTrace, main zero_heap 1000 4096 = some t ∧
      t.start = 4096 ∧ t.offset0 = 0 ∧
      t.status1 = 0 ∧ ptrDiff t.ptr1 t.start = 0 ∧ t.offset1 = 12 ∧
      t.status2 = 0 ∧ ptrDiff t.ptr2 t.start = 12 ∧ t.offset2 = 40 ∧
      t.status3 = -2 ∧ t.ptr3 = NULL ∧ t.offset3 = 40 :=
  ⟨by decide, by decide, main_demo zero_heap 1000 4096 (by decide) (by decide)⟩

/-! ## Sequences of allocations -/

theorem store_keeps {α : Type} (f : mm_pool_s → α) (h : Ptr → mm_pool_s) (p q : Ptr)
    (v : mm_pool_s) (hv : f v = f (h p)) : f (store h p v q) = f (h q) := by
  rw [store_apply]
  split_ifs with e
  · rw [hv, e]
  · rfl

theorem created_block (s : State) (p : Ptr) (n : Int) (a : Ptr) (t : State)
    (hg : ¬ (a = NULL ∨ p = NULL ∨ n ≤ 0)) (hm : rounded_size n ≠ 0)
    (ht : mm_pool_create s p n a = some t) :
    (t.heap p).mm_pool_start = a ∧ (t.heap p).mm_pool_size = rounded_size n ∧
    (t.heap p).mm_pool_list = a := by
  rcases create_cases s p n a t ht with ⟨h, _⟩ | ⟨_, h, _⟩ | ⟨_, _, _, e⟩ |
    ⟨_, _, _, _, hne, _, e⟩
  · exact absurd h hg
  · exact absurd h hm
  · rw [e]
    dsimp only
    rw [store_at]
    exact ⟨rfl, rfl, rfl⟩
  · rw [e]
    dsimp only
    have hb : store (store s.heap p (fresh_block a (rounded_size n) s._mm_head
        (s.heap s._mm_head).prev)) s._mm_head (set_prev (s.heap s._mm_head) p) p
        = fresh_block a (rounded_size n) s._mm_head (s.heap s._mm_head).prev := by
      rw [store_apply, if_neg (Ne.symm hne), store_at]
    refine ⟨?_, ?_, ?_⟩
    · refine (store_keeps (fun b => b.mm_pool_start) _ _ _ _ ?_).trans ?_
      · rfl
      · rw [hb]
        rfl
    · refine (store_keeps (fun b => b.mm_pool_size) _ _ _ _ ?_).trans ?_
      · rfl
      · rw [hb]
        rfl
    · refine (store_keeps (fun b => b.mm_pool_list) _ _ _ _ ?_).trans ?_
      · rfl
      · rw [hb]
        rfl

theorem allocate_step (s : State) (p a : Ptr) (m : Int) (o : Nat) (n : Int)
    (hp : p ≠ NULL) (ha : a ≠ NULL) (hm0 : 0 < m) (hm1 : m ≤ INT_MAX)
    (hfit : (a : Int) + m < 18446744073709551616) (hn : n ≤ 2147483644)
    (hinv : PoolAt s p a m o) :
    ((mm_pool_allocate s p (some NULL) n 0).status = 0 →
      0 < aligned_mm_size n ∧ (o : Int) + aligned_mm_size n ≤ m ∧
      (mm_pool_allocate s p (some NULL) n 0).out = some (a + o) ∧
      PoolAt (mm_pool_allocate s p (some NULL) n 0).state p a m
        (o + (aligned_mm_size n).toNat)) ∧
    ((mm_pool_allocate s p (some NULL) n 0).status ≠ 0 →
      (mm_pool_allocate s p (some NULL) n 0).state = s) := by
  obtain ⟨h1, h2, h3, h4⟩ := hinv
  by_cases hn0 : n ≤ 0
  · have e : mm_pool_allocate s p (some NULL) n 0
        = { status := -1, state := s, out := some NULL } := by
      simp [mm_pool_allocate, hn0]
    rw [e]
    constructor
    · intro h
      simp at h
    · intro _
      rfl
  · have hpos : 0 < n := not_le.mp hn0
    have hoff : offset (s.heap p) = o := by
      unfold offset ptrDiff toLong
      rw [h1, h3]
      unfold INT_MAX at hm1
      push_cast
      omega
    have hal := aligned_mm_size_eq_align_up n (le_of_lt hpos) hn
    have hb : 0 < align_up n ∧ align_up n ≤ INT_MAX := by
      unfold align_up ALIGN_SIZE INT_MAX
      omega
    obtain ⟨g1, g2, g3⟩ := allocate_in_range s p NULL n 0 hp (by rw [h1]; exact ha)
      (by rw [h2]; exact hm0) hpos hn
      (by rw [hoff]; unfold INT_MAX at hm1 ⊢; unfold LONG_MAX; omega)
    rw [hoff, h2] at g1 g2 g3
    constructor
    · intro hst
      have hle := g1.mp hst
      obtain ⟨k1, k2, _, _⟩ := g2 hle
      rw [hal]
      refine ⟨hb.1, hle, ?_, ?_⟩
      · rw [k1, h3]
      · unfold PoolAt
        rw [k2, store_at]
        refine ⟨h1, h2, ?_, ?_⟩
        · show ptrAdd (s.heap p).mm_pool_list (align_up n) = a + (o + (align_up n).toNat)
          rw [h3]
          unfold ptrAdd
          unfold INT_MAX at hm1
          have := hb.1
          change @Eq Nat _ _
          omega
        · have := hb.1
          omega
    · intro hst
      have hnle : ¬ ((o : Int) + align_up n ≤ m) := fun h => hst (g1.mpr h)
      exact (g3 hnle).2.2


theorem allocate_all_blocks (p a : Ptr) (m : Int) (hp : p ≠ NULL) (ha : a ≠ NULL)
    (hm0 : 0 < m) (hm1 : m ≤ INT_MAX) (hfit : (a : Int) + m < 18446744073709551616) :
    ∀ (reqs : List Int) (s : State) (o : Nat), PoolAt s p a m o →
      (∀ n ∈ reqs, n ≤ 2147483644) →
      (∀ b ∈ (allocate_all p s reqs).2,
        (a : Int) + o ≤ b.addr ∧ (b.addr : Int) + b.len ≤ (a : Int) + m ∧ 0 < b.len) ∧
      (allocate_all p s reqs).2.Pairwise Apart := by
  intro reqs
  induction reqs with
  | nil =>
    intro s o _ _
    simp [allocate_all]
  | cons n ns ih =>
    intro s o hinv hreq
    have hn : n ≤ 2147483644 := hreq n (List.mem_cons_self n ns)
    have hns : ∀ k ∈ ns, k ≤ 2147483644 := fun k hk => hreq k (List.mem_cons_of_mem n hk)
    obtain ⟨hok, hfail⟩ := allocate_step s p a m o n hp ha hm0 hm1 hfit hn hinv
    by_cases hst : (mm_pool_allocate s p (some NULL) n 0).status = 0
    · obtain ⟨hpos, hle, hout, hinv1⟩ := hok hst
      obtain ⟨ih1, ih2⟩ := ih _ _ hinv1 hns
      have hnat : (((aligned_mm_size n).toNat : Nat) : Int) = aligned_mm_size n :=
        Int.toNat_of_nonneg (le_of_lt hpos)
      simp only [allocate_all, if_pos hst, hout, Option.getD_some]
      constructor
      · intro b hb
        rcases List.mem_cons.mp hb with e | hb1
        · rw [e]
          dsimp only
          push_cast
          omega
        · obtain ⟨k1, k2, k3⟩ := ih1 b hb1
          push_cast at k1
          omega
      · refine List.pairwise_cons.mpr ⟨?_, ih2⟩
        intro b hb1
        obtain ⟨k1, _, _⟩ := ih1 b hb1
        left
        dsimp only
        push_cast at k1 ⊢
        omega
    · simp only [allocate_all, if_neg hst]
      rw [hfail hst]
      exact ih s o hinv hns

theorem allocate_all_invalid (p : Ptr) :
    ∀ (reqs : List Int) (s : State), (s.heap p).mm_pool_start = NULL →
      (allocate_all p s reqs).2 = [] := by
  intro reqs
  induction reqs with
  | nil =>
    intro s _
    rfl
  | cons n ns ih =>
    intro s hs
    have e : mm_pool_allocate s p (some NULL) n 0
        = { status := -1, state := s, out := some NULL } := by
      unfold mm_pool_allocate
      by_cases hc : p = NULL ∨ (some NULL : Option Ptr) = none ∨ n ≤ 0
      · rw [if_pos hc]
      · rw [if_neg hc]
        simp only [if_pos (Or.inl hs : (s.heap p).mm_pool_start = NULL ∨
          (s.heap p).mm_pool_size ≤ 0)]
    have hst : ¬ ((mm_pool_allocate s p (some NULL) n 0).status = 0) := by
      rw [e]
      simp
    simp only [allocate_all, if_neg hst]
    rw [e]
    exact ih s hs

/-- Requests of at most `INT_MAX - 3` bytes on a pool made by `mm_pool_create`
over storage that lies in the address space: the blocks of the successful
calls are pairwise disjoint and each lies inside the storage of the pool. -/
theorem created_pool_blocks_apart (s s0 : State) (p : Ptr) (n : Int) (a : Ptr)
    (reqs : List Int) (hp : p ≠ NULL) (ha : a ≠ NULL) (h0 : 0 < n) (h1 : n ≤ INT_MAX)
    (hfit : (a : Int) + n < 18446744073709551616)
    (hreq : ∀ k ∈ reqs, k ≤ INT_MAX - 3)
    (hc : mm_pool_create s p n a = some s0) :
    (allocate_all p s0 reqs).2.Pairwise Apart ∧
    ∀ b ∈ (allocate_all p s0 reqs).2,
      Inside (s0.heap p).mm_pool_start (s0.heap p).mm_pool_size b := by
  have hg : ¬ (a = NULL ∨ p = NULL ∨ n ≤ 0) := by
    simp [hp, ha, not_le.mpr h0]
  have hr := rounded_size_eq n h0 h1
  by_cases hm : rounded_size n = 0
  · rw [create_too_small s p n a hg hm] at hc
    have e := (Option.some.inj hc).symm
    have hnil := allocate_all_invalid p reqs s0 (by rw [e]; dsimp only; rw [store_at]; rfl)
    rw [hnil]
    exact ⟨List.Pairwise.nil, fun b hb => absurd hb (List.not_mem_nil b)⟩
  · obtain ⟨c1, c2, c3⟩ := created_block s p n a s0 hg hm hc
    have hinv : PoolAt s0 p a (rounded_size n) 0 := by
      refine ⟨c1, c2, ?_, ?_⟩
      · rw [c3]
        rfl
      · rw [hr]
        push_cast
        omega
    have hreq1 : ∀ k ∈ reqs, k ≤ 2147483644 := by
      intro k hk
      have := hreq k hk
      unfold INT_MAX at this
      omega
    obtain ⟨r1, r2⟩ := allocate_all_blocks p a (rounded_size n) hp ha
      (by rw [hr] at hm ⊢; omega) (by rw [hr]; unfold INT_MAX at h1 ⊢; omega)
      (by rw [hr]; omega) reqs s0 0 hinv hreq1
    refine ⟨r2, fun b hb => ?_⟩
    obtain ⟨k1, k2, _⟩ := r1 b hb
    rw [c1, c2]
    unfold Inside
    push_cast at k1
    exact ⟨by omega, k2⟩

/-! ## Every call of `mm_pool_allocate`, by cases -/

theorem allocate_cases (s : State) (p : Ptr) (mm_ptr : Option Ptr) (n w : Int) :
    ((mm_pool_allocate s p mm_ptr n w).status ≠ 0 ∧
      (mm_pool_allocate s p mm_ptr n w).state = s) ∨
    ((mm_pool_allocate s p mm_ptr n w).status = 0 ∧ p ≠ NULL ∧ 0 < n ∧
      (s.heap p).mm_pool_start ≠ NULL ∧ 0 < (s.heap p).mm_pool_size ∧
      toLong (offset (s.heap p) + aligned_mm_size n) ≤ (s.heap p).mm_pool_size ∧
      (mm_pool_allocate s p mm_ptr n w).out = some (s.heap p).mm_pool_list ∧
      (mm_pool_allocate s p mm_ptr n w).state.heap
        = store s.heap p
            (set_list (s.heap p) (ptrAdd (s.heap p).mm_pool_list (aligned_mm_size n))) ∧
      (mm_pool_allocate s p mm_ptr n w).state._mm_head = s._mm_head ∧
      (mm_pool_allocate s p mm_ptr n w).state._mm_byte_count = s._mm_byte_count) := by
  unfold mm_pool_allocate
  by_cases hc : p = NULL ∨ mm_ptr = none ∨ n ≤ 0
  · left
    rw [if_pos hc]
    refine ⟨?_, rfl⟩
    show (-1 : Int) ≠ 0
    decide
  · rw [if_neg hc]
    by_cases hd : (s.heap p).mm_pool_start = NULL ∨ (s.heap p).mm_pool_size ≤ 0
    · left
      simp only [if_pos hd]
      refine ⟨?_, trivial⟩
      show (-1 : Int) ≠ 0
      decide
    · simp only [if_neg hd]
      by_cases hgt : toLong (ptrDiff (s.heap p).mm_pool_list (s.heap p).mm_pool_start
          + aligned_mm_size n) > (s.heap p).mm_pool_size
      · left
        rw [if_pos hgt]
        refine ⟨?_, rfl⟩
        show (-2 : Int) ≠ 0
        decide
      · right
        rw [if_neg hgt]
        refine ⟨rfl, fun e => hc (Or.inl e), ?_, fun e => hd (Or.inl e), ?_, ?_, rfl, rfl, rfl,
          rfl⟩
        · exact not_le.mp (fun e => hc (Or.inr (Or.inr e)))
        · exact not_le.mp (fun e => hd (Or.inr e))
        · exact not_lt.mp hgt

theorem cursor_step (s : State) (p : Ptr) (mm_ptr : Option Ptr) (n w : Int)
    (hn : n ≤ 2147483644) (hinv : CursorOk s p) :
    CursorOk (mm_pool_allocate s p mm_ptr n w).state p ∧
    ((mm_pool_allocate s p mm_ptr n w).state.heap p).mm_pool_start = (s.heap p).mm_pool_start ∧
    ((mm_pool_allocate s p mm_ptr n w).state.heap p).mm_pool_size = (s.heap p).mm_pool_size ∧
    offset (s.heap p) ≤ offset ((mm_pool_allocate s p mm_ptr n w).state.heap p) := by
  rcases allocate_cases s p mm_ptr n w with ⟨_, e⟩ | ⟨_, _, hpos, _, _, hle, _, e, _, _⟩
  · rw [e]
    exact ⟨hinv, rfl, rfl, le_refl _⟩
  · obtain ⟨i1, i2, i3, i4, i5, i6, i7⟩ := hinv
    have hal := aligned_mm_size_eq n (le_of_lt hpos) hn
    have hoff : offset ((mm_pool_allocate s p mm_ptr n w).state.heap p)
        = offset (s.heap p) + aligned_mm_size n := by
      rw [e, store_at, offset_ptrAdd]
      unfold INT_MAX at i3
      unfold toLong
      omega
    have hst : ((mm_pool_allocate s p mm_ptr n w).state.heap p).mm_pool_start
        = (s.heap p).mm_pool_start := by
      rw [e, store_at]
      rfl
    have hsz : ((mm_pool_allocate s p mm_ptr n w).state.heap p).mm_pool_size
        = (s.heap p).mm_pool_size := by
      rw [e, store_at]
      rfl
    have hle1 : offset (s.heap p) + aligned_mm_size n ≤ (s.heap p).mm_pool_size := by
      unfold INT_MAX at i3
      unfold toLong at hle
      omega
    refine ⟨⟨?_, ?_, ?_, ?_, ?_, ?_, ?_⟩, hst, hsz, ?_⟩
    · rw [hst]
      exact i1
    · rw [hsz]
      exact i2
    · rw [hsz]
      exact i3
    · rw [hsz]
      exact i4
    · rw [hoff]
      omega
    · rw [hoff, hsz]
      exact hle1
    · rw [hoff]
      unfold ALIGN_SIZE at i7 ⊢
      omega
    · rw [hoff]
      omega

/-- C13: on the pool created over a 50-byte buffer, the single call
`allocate(INT_MAX)` returns 0 and leaves the cursor at offset `-2^31`, below
the start of the pool of size 48. -/
theorem cursor_below_start :
    ∃ s : State, mm_pool_create (initial zero_heap) 1000 50 4096 = some s ∧
      (allocate_trace 1000 s [{ mm_ptr := some NULL, mm_size := 2147483647, wait_op := 0 }]).map
        (fun r => (r.status, offset (r.state.heap 1000), (r.state.heap 1000).mm_pool_size))
        = [(0, -2147483648, 48)] ∧
      ¬ (0 ≤ offset ((mm_pool_allocate s 1000 (some NULL) 2147483647 0).state.heap 1000)) := by
  refine ⟨_, rfl, ?_⟩
  decide

/-- Requests of at most `INT_MAX - 3` bytes keep the cursor inside the pool:
after every call of the sequence `0 <= cursor - start <= size`. -/
theorem cursor_trace (p : Ptr) :
    ∀ (calls : List AllocCall) (s : State), CursorOk s p →
      (∀ c ∈ calls, c.mm_size ≤ 2147483644) →
      ∀ r ∈ allocate_trace p s calls,
        0 ≤ offset (r.state.heap p) ∧ offset (r.state.heap p) ≤ (r.state.heap p).mm_pool_size := by
  intro calls
  induction calls with
  | nil =>
    intro s _ _ r hr
    simp [allocate_trace] at hr
  | cons c cs ih =>
    intro s hinv hreq r hr
    obtain ⟨h1, _, _, _⟩ := cursor_step s p c.mm_ptr c.mm_size c.wait_op
      (hreq c (List.mem_cons_self c cs)) hinv
    simp only [allocate_trace, List.mem_cons] at hr
    rcases hr with e | hr1
    · rw [e]
      exact ⟨h1.2.2.2.2.1, h1.2.2.2.2.2.1⟩
    · exact ih _ h1 (fun d hd => hreq d (List.mem_cons_of_mem c hd)) r hr1

/-! ## Alignment of the handed-out blocks -/

/-- C19: on the demo pool with the cursor at offset 40 of 48, `allocate(20)`
fails with `-2`; after a further `allocate(INT_MAX)`, which returns 0 and
moves the cursor back by `2^31`, and a `mm_pool_free`, the same request
`allocate(20)` returns 0. -/
theorem exhaustion_undone :
    ∃ s : State, mm_pool_create (initial zero_heap) 1000 50 4096 = some s ∧
      ∃ t : State, t = allocate_run 1000 s
        [{ mm_ptr := some NULL, mm_size := 10, wait_op := 0 },
         { mm_ptr := some NULL, mm_size := 25, wait_op := 0 }] ∧
      (mm_pool_allocate t 1000 (some NULL) 20 0).status = -2 ∧
      (mm_pool_allocate t 1000 (some NULL) 2147483647 0).status = 0 ∧
      (mm_pool_allocate
        (run_ops 1000 t
          [PoolOp.allocate { mm_ptr := some NULL, mm_size := 2147483647, wait_op := 0 },
           PoolOp.free])
        1000 (some NULL) 20 0).status = 0 := by
  refine ⟨_, rfl, _, rfl, ?_⟩
  decide

theorem cursor_ops (p : Ptr) :
    ∀ (ops : List PoolOp) (s : State), CursorOk s p →
      (∀ c : AllocCall, PoolOp.allocate c ∈ ops → c.mm_size ≤ 2147483644) →
      CursorOk (run_ops p s ops) p ∧
      ((run_ops p s ops).heap p).mm_pool_size = (s.heap p).mm_pool_size ∧
      offset (s.heap p) ≤ offset ((run_ops p s ops).heap p) := by
  intro ops
  induction ops with
  | nil =>
    intro s hinv _
    exact ⟨hinv, rfl, le_refl _⟩
  | cons op rest ih =>
    intro s hinv hreq
    have hrest : ∀ c : AllocCall, PoolOp.allocate c ∈ rest → c.mm_size ≤ 2147483644 :=
      fun c hc => hreq c (List.mem_cons_of_mem op hc)
    cases op with
    | allocate c =>
      obtain ⟨h1, _, h3, h4⟩ := cursor_step s p c.mm_ptr c.mm_size c.wait_op
        (hreq c (List.mem_cons_self _ rest)) hinv
      obtain ⟨k1, k2, k3⟩ := ih _ h1 hrest
      exact ⟨k1, k2.trans h3, le_trans h4 k3⟩
    | free =>
      exact ih s hinv hrest

/-- While every request is at most `INT_MAX - 3` bytes, exhaustion is
permanent: once a request of `n` bytes has failed with `-2`, every request of
`m >= n` bytes fails with `-2` after any further `mm_pool_allocate` and
`mm_pool_free` calls. -/
theorem exhaustion_permanent (s : State) (p : Ptr) (v v1 : Ptr) (n w m w1 : Int)
    (ops : List PoolOp) (hinv : CursorOk s p) (hn : 0 < n) (hnm : n ≤ m)
    (hm : m ≤ INT_MAX - 3)
    (hreq : ∀ c : AllocCall, PoolOp.allocate c ∈ ops → c.mm_size ≤ INT_MAX - 3)
    (hfail : (mm_pool_allocate s p (some v) n w).status = -2) :
    (mm_pool_allocate (run_ops p s ops) p (some v1) m w1).status = -2 := by
  have hp : p ≠ NULL := by
    intro e
    rw [e] at hfail
    simp [mm_pool_allocate] at hfail
  have hm1 : m ≤ 2147483644 := by
    unfold INT_MAX at hm
    omega
  have hreq1 : ∀ c : AllocCall, PoolOp.allocate c ∈ ops → c.mm_size ≤ 2147483644 := by
    intro c hc
    have := hreq c hc
    unfold INT_MAX at this
    omega
  obtain ⟨i1, i2, i3, _, i5, i6, _⟩ := hinv
  have hoffb : offset (s.heap p) + INT_MAX ≤ LONG_MAX := by
    unfold INT_MAX at i3 ⊢
    unfold LONG_MAX
    omega
  obtain ⟨g1, _, _⟩ := allocate_in_range s p v n w hp i1 i2 hn (by omega) hoffb
  have hnofit : ¬ (offset (s.heap p) + align_up n ≤ (s.heap p).mm_pool_size) := by
    intro h
    have := g1.mpr h
    rw [this] at hfail
    exact absurd hfail (by decide)
  obtain ⟨⟨j1, j2, j3, _, j5, j6, _⟩, ksz, koff⟩ :=
    cursor_ops p ops s ⟨i1, i2, i3, ‹_›, i5, i6, ‹_›⟩ hreq1
  have hoffb1 : offset ((run_ops p s ops).heap p) + INT_MAX ≤ LONG_MAX := by
    unfold INT_MAX at j3 ⊢
    unfold LONG_MAX
    omega
  obtain ⟨_, _, r3⟩ := allocate_in_range (run_ops p s ops) p v1 m w1 hp j1 j2 (by omega) hm1
    hoffb1
  refine (r3 ?_).1
  rw [ksz]
  unfold align_up ALIGN_SIZE at hnofit ⊢
  omega

/-! ## The links after `mm_pool_create` -/

theorem spliced_next (h : Ptr → mm_pool_s) (p hd tl : Ptr) (F : mm_pool_s) (q : Ptr)
    (h1 : hd ≠ p) (h2 : tl ≠ p) :
    (store (store (store h p F) hd (set_prev (h hd) p)) tl
        (set_next (store (store h p F) hd (set_prev (h hd) p) tl) p) q).next
      = if q = tl then p else if q = p then F.next else (h q).next := by
  simp only [store_apply]
  split_ifs <;> simp_all

theorem spliced_prev (h : Ptr → mm_pool_s) (p hd tl : Ptr) (F : mm_pool_s) (q : Ptr)
    (h1 : hd ≠ p) (h2 : tl ≠ p) :
    (store (store (store h p F) hd (set_prev (h hd) p)) tl
        (set_next (store (store h p F) hd (set_prev (h hd) p) tl) p) q).prev
      = if q = hd then p else if q = p then F.prev else (h q).prev := by
  simp only [store_apply]
  split_ifs <;> simp_all

theorem spliced_other (h : Ptr → mm_pool_s) (p hd tl : Ptr) (F : mm_pool_s) (q : Ptr)
    (hq : q ≠ p) :
    (store (store (store h p F) hd (set_prev (h hd) p)) tl
        (set_next (store (store h p F) hd (set_prev (h hd) p) tl) p) q).mm_pool_id
      = (h q).mm_pool_id ∧
    (store (store (store h p F) hd (set_prev (h hd) p)) tl
        (set_next (store (store h p F) hd (set_prev (h hd) p) tl) p) q).mm_pool_list
      = (h q).mm_pool_list ∧
    (store (store (store h p F) hd (set_prev (h hd) p)) tl
        (set_next (store (store h p F) hd (set_prev (h hd) p) tl) p) q).mm_pool_search
      = (h q).mm_pool_search ∧
    (store (store (store h p F) hd (set_prev (h hd) p)) tl
        (set_next (store (store h p F) hd (set_prev (h hd) p) tl) p) q).mm_pool_start
      = (h q).mm_pool_start ∧
    (store (store (store h p F) hd (set_prev (h hd) p)) tl
        (set_next (store (store h p F) hd (set_prev (h hd) p) tl) p) q).mm_pool_size
      = (h q).mm_pool_size := by
  simp only [store_apply]
  split_ifs <;> simp_all

theorem spliced_self (h : Ptr → mm_pool_s) (p hd tl : Ptr) (F : mm_pool_s)
    (h1 : hd ≠ p) (h2 : tl ≠ p) :
    store (store (store h p F) hd (set_prev (h hd) p)) tl
        (set_next (store (store h p F) hd (set_prev (h hd) p) tl) p) p = F := by
  rw [store_apply, if_neg (Ne.symm h2), store_apply, if_neg (Ne.symm h1), store_at]


/-- C15: a create with accepted arguments (`int` size, non-null block and
storage, rounded size positive). On the empty registry (`_mm_byte_count == 0`)
the call returns and makes the block the head and its own `next` and `prev`,
with every other block unchanged. On a non-empty registry with non-null head
and tail, for a block that is neither the head nor the tail (as every block
not yet in the registry), the call returns and splices the block before the
head: `new.next = head`, `new.prev = old head.prev`, `head.prev = new`,
`old tail.next = new`, with the head pointer, every other `prev` and `next`
link and every other field of the other blocks unchanged. -/
theorem create_splices_before_head (s : State) (pool_ptr : Ptr) (mm_size : Int)
    (start_address : Ptr) (hn0 : INT_MIN ≤ mm_size) (hn1 : mm_size ≤ INT_MAX)
    (hok : create_args_ok pool_ptr mm_size start_address) :
    (s._mm_byte_count = 0 →
      ∃ t : State, mm_pool_create s pool_ptr mm_size start_address = some t ∧
        t._mm_head = pool_ptr ∧ (t.heap pool_ptr).next = pool_ptr ∧
        (t.heap pool_ptr).prev = pool_ptr ∧
        ∀ q : Ptr, q ≠ pool_ptr → t.heap q = s.heap q) ∧
    (s._mm_byte_count ≠ 0 → s._mm_head ≠ NULL → (s.heap s._mm_head).prev ≠ NULL →
      pool_ptr ≠ s._mm_head → pool_ptr ≠ (s.heap s._mm_head).prev →
      ∃ t : State, mm_pool_create s pool_ptr mm_size start_address = some t ∧
        t._mm_head = s._mm_head ∧
        (t.heap pool_ptr).next = s._mm_head ∧
        (t.heap pool_ptr).prev = (s.heap s._mm_head).prev ∧
        (t.heap s._mm_head).prev = pool_ptr ∧
        (t.heap (s.heap s._mm_head).prev).next = pool_ptr ∧
        (∀ q : Ptr, q ≠ pool_ptr → q ≠ s._mm_head → (t.heap q).prev = (s.heap q).prev) ∧
        (∀ q : Ptr, q ≠ pool_ptr → q ≠ (s.heap s._mm_head).prev →
          (t.heap q).next = (s.heap q).next) ∧
        (∀ q : Ptr, q ≠ pool_ptr →
          (t.heap q).mm_pool_id = (s.heap q).mm_pool_id ∧
          (t.heap q).mm_pool_list = (s.heap q).mm_pool_list ∧
          (t.heap q).mm_pool_search = (s.heap q).mm_pool_search ∧
          (t.heap q).mm_pool_start = (s.heap q).mm_pool_start ∧
          (t.heap q).mm_pool_size = (s.heap q).mm_pool_size)) := by
  obtain ⟨hg, hm⟩ := (args_ok_iff pool_ptr mm_size start_address hn0 hn1).mp hok
  constructor
  · intro hc
    refine ⟨_, create_first s pool_ptr mm_size start_address hg hm hc, rfl, ?_, ?_, ?_⟩
    · dsimp only
      rw [store_at]
      rfl
    · dsimp only
      rw [store_at]
      rfl
    · intro q hq
      dsimp only
      rw [store_apply, if_neg hq]
  · intro hc hh hq hne1 hne2
    refine ⟨_, create_next s pool_ptr mm_size start_address hg hm hc hh (Ne.symm hne1) hq,
      rfl, ?_, ?_, ?_, ?_, ?_, ?_, ?_⟩
    · dsimp only
      rw [spliced_self _ _ _ _ _ (Ne.symm hne1) (Ne.symm hne2)]
      rfl
    · dsimp only
      rw [spliced_self _ _ _ _ _ (Ne.symm hne1) (Ne.symm hne2)]
      rfl
    · dsimp only
      rw [spliced_prev _ _ _ _ _ _ (Ne.symm hne1) (Ne.symm hne2), if_pos rfl]
    · dsimp only
      rw [spliced_next _ _ _ _ _ _ (Ne.symm hne1) (Ne.symm hne2), if_pos rfl]
    · intro q h1 h2
      dsimp only
      rw [spliced_prev _ _ _ _ _ _ (Ne.symm hne1) (Ne.symm hne2), if_neg h2, if_neg h1]
    · intro q h1 h2
      dsimp only
      rw [spliced_next _ _ _ _ _ _ (Ne.symm hne1) (Ne.symm hne2), if_neg h2, if_neg h1]
    · intro q h1
      exact spliced_other _ _ _ _ _ _ h1

theorem create_splices_before_head_witness :
    INT_MIN ≤ 50 ∧ (50 : Int) ≤ INT_MAX ∧ create_args_ok 2000 50 8192 ∧
    (demo_registry._mm_byte_count = 0 →
      ∃ t : State, mm_pool_create demo_registry 2000 50 8192 = some t ∧
        t._mm_head = 2000 ∧ (t.heap 2000).next = 2000 ∧
        (t.heap 2000).prev = 2000 ∧
        ∀ q : Ptr, q ≠ 2000 → t.heap q = demo_registry.heap q) ∧
    (demo_registry._mm_byte_count ≠ 0 → demo_registry._mm_head ≠ NULL →
      (demo_registry.heap demo_registry._mm_head).prev ≠ NULL →
      2000 ≠ demo_registry._mm_head → 2000 ≠ (demo_registry.heap demo_registry._mm_head).prev →
      ∃ t : State, mm_pool_create demo_registry 2000 50 8192 = some t ∧
        t._mm_head = demo_registry._mm_head ∧
        (t.heap 2000).next = demo_registry._mm_head ∧
        (t.heap 2000).prev = (demo_registry.heap demo_registry._mm_head).prev ∧
        (t.heap demo_registry._mm_head).prev = 2000 ∧
        (t.heap (demo_registry.heap demo_registry._mm_head).prev).next = 2000 ∧
        (∀ q : Ptr, q ≠ 2000 → q ≠ demo_registry._mm_head →
          (t.heap q).prev = (demo_registry.heap q).prev) ∧
        (∀ q : Ptr, q ≠ 2000 → q ≠ (demo_registry.heap demo_registry._mm_head).prev →
          (t.heap q).next = (demo_registry.heap q).next) ∧
        (∀ q : Ptr, q ≠ 2000 →
          (t.heap q).mm_pool_id = (demo_registry.heap q).mm_pool_id ∧
          (t.heap q).mm_pool_list = (demo_registry.heap q).mm_pool_list ∧
          (t.heap q).mm_pool_search = (demo_registry.heap q).mm_pool_search ∧
          (t.heap q).mm_pool_start = (demo_registry.heap q).mm_pool_start ∧
          (t.heap q).mm_pool_size = (demo_registry.heap q).mm_pool_size)) :=
  ⟨by decide, by decide, ⟨by decide, by decide, by decide⟩,
    create_splices_before_head demo_registry 2000 50 8192 (by decide) (by decide)
      ⟨by decide, by decide, by decide⟩⟩

/-! ## The registry as a ring -/

theorem nodup_index (L : List Ptr) (hL : L.Nodup) (i j : Nat) (x : Ptr)
    (hi : L[i]? = some x) (hj : L[j]? = some x) : i = j := by
  obtain ⟨bi, ei⟩ := List.getElem?_eq_some_iff.mp hi
  obtain ⟨bj, ej⟩ := List.getElem?_eq_some_iff.mp hj
  exact (List.Nodup.getElem_inj_iff hL).mp (ei.trans ej.symm)

theorem ring_initial (h : Ptr → mm_pool_s) : Ring (initial h) [] := by
  refine ⟨List.nodup_nil, ?_, rfl, rfl, ?_, ?_, ?_⟩
  · intro x hx
    exact absurd hx (List.not_mem_nil x)
  · intro i x y hx _
    simp at hx
  · intro x y hx _
    simp at hx
  · intro x hx
    exact absurd hx (List.not_mem_nil x)

theorem ring_same_blocks (s : State) (L : List Ptr) (h1 : Ptr → mm_pool_s)
    (hring : Ring s L) (hsame : ∀ x ∈ L, h1 x = s.heap x) :
    Ring { s with heap := h1 } L := by
  obtain ⟨r1, r2, r3, r4, r5, r6, r7⟩ := hring
  refine ⟨r1, r2, r3, r4, ?_, ?_, ?_⟩
  · intro i x y hx hy
    obtain ⟨l1, l2⟩ := r5 i x y hx hy
    unfold Linked
    dsimp only
    rw [hsame x (List.getElem?_mem hx), hsame y (List.getElem?_mem hy)]
    exact ⟨l1, l2⟩
  · intro x y hx hy
    obtain ⟨l1, l2⟩ := r6 x y hx hy
    unfold Linked
    dsimp only
    rw [hsame x (List.mem_of_mem_getLast? hx), hsame y (List.mem_of_mem_head? hy)]
    exact ⟨l1, l2⟩
  · intro x hx
    dsimp only
    rw [hsame x hx]
    exact r7 x hx

theorem ring_first (s : State) (p a : Ptr) (m : Int) (hp : p ≠ NULL)
    (hc : s._mm_byte_count = 0) :
    Ring { heap := store s.heap p (fresh_block a m p p), _mm_head := p,
           _mm_byte_count := toInt (s._mm_byte_count + 1) } [p] := by
  refine ⟨List.nodup_singleton p, ?_, ?_, rfl, ?_, ?_, ?_⟩
  · intro x hx
    rw [List.mem_singleton.mp hx]
    exact hp
  · dsimp only
    rw [hc]
    show toInt (0 + 1) = ((1 : Nat) : Int)
    decide
  · intro i x y _ hy
    simp at hy
  · intro x y hx hy
    simp at hx hy
    rw [← hx, ← hy]
    unfold Linked
    dsimp only
    rw [store_at]
    exact ⟨rfl, rfl⟩
  · intro x hx
    rw [List.mem_singleton.mp hx]
    dsimp only
    rw [store_at]
    rfl


theorem ring_splice (s : State) (L : List Ptr) (p hd last : Ptr) (F : mm_pool_s)
    (hring : Ring s L) (hhd : L.head? = some hd) (hlast : L.getLast? = some last)
    (hp : p ≠ NULL) (hnot : p ∉ L) (hlen : (L.length : Int) < INT_MAX)
    (hF : F.next = hd ∧ F.prev = last ∧ F.mm_pool_id = 0) :
    Ring
      { heap := store (store (store s.heap p F) hd (set_prev (s.heap hd) p)) last
          (set_next (store (store s.heap p F) hd (set_prev (s.heap hd) p) last) p),
        _mm_head := hd,
        _mm_byte_count := toInt (s._mm_byte_count + 1) } (L ++ [p]) := by
  obtain ⟨r1, r2, r3, r4, r5, r6, r7⟩ := hring
  have mhd : hd ∈ L := List.mem_of_mem_head? hhd
  have mlast : last ∈ L := List.mem_of_mem_getLast? hlast
  have h1 : hd ≠ p := fun e => hnot (e ▸ mhd)
  have h2 : last ≠ p := fun e => hnot (e ▸ mlast)
  have i0 : L[0]? = some hd := by
    rw [← List.head?_eq_getElem?]
    exact hhd
  have ilast : L[L.length - 1]? = some last := by
    rw [← List.getLast?_eq_getElem?]
    exact hlast
  have hpos : 0 < L.length := List.length_pos_of_mem mhd
  refine ⟨?_, ?_, ?_, ?_, ?_, ?_, ?_⟩
  · rw [List.nodup_append]
    refine ⟨r1, List.nodup_singleton p, ?_⟩
    intro x hx hxp
    rw [List.mem_singleton.mp hxp] at hx
    exact hnot hx
  · intro x hx
    rcases List.mem_append.mp hx with h | h
    · exact r2 x h
    · rw [List.mem_singleton.mp h]
      exact hp
  · dsimp only
    rw [r3, List.length_append, List.length_singleton]
    push_cast
    exact toInt_succ _ (by unfold INT_MIN; omega) hlen
  · dsimp only
    rw [List.head?_append, hhd]
    rfl
  · intro i x y hx hy
    by_cases hi : i + 1 < L.length
    · rw [List.getElem?_append_left (by omega)] at hx
      rw [List.getElem?_append_left hi] at hy
      obtain ⟨l1, l2⟩ := r5 i x y hx hy
      have mx : x ∈ L := List.getElem?_mem hx
      have my : y ∈ L := List.getElem?_mem hy
      have x1 : x ≠ last := by
        intro e
        rw [e] at hx
        have := nodup_index L r1 _ _ _ hx ilast
        omega
      have y1 : y ≠ hd := by
        intro e
        rw [e] at hy
        have := nodup_index L r1 _ _ _ hy i0
        omega
      have x2 : x ≠ p := fun e => hnot (e ▸ mx)
      have y2 : y ≠ p := fun e => hnot (e ▸ my)
      unfold Linked
      dsimp only
      rw [spliced_next _ _ _ _ _ _ h1 h2, spliced_prev _ _ _ _ _ _ h1 h2, if_neg x1,
        if_neg x2, if_neg y1, if_neg y2]
      exact ⟨l1, l2⟩
    · have hb : i + 1 < (L ++ [p]).length := (List.getElem?_eq_some_iff.mp hy).1
      rw [List.length_append, List.length_singleton] at hb
      have hi1 : i = L.length - 1 := by omega
      have hi2 : i + 1 = L.length := by omega
      rw [List.getElem?_append_left (by omega), hi1, ilast] at hx
      rw [hi2, List.getElem?_concat_length] at hy
      rw [← Option.some.inj hx, ← Option.some.inj hy]
      unfold Linked
      dsimp only
      rw [spliced_next _ _ _ _ _ _ h1 h2, if_pos rfl, spliced_self _ _ _ _ _ h1 h2]
      exact ⟨rfl, hF.2.1⟩
  · intro x y hx hy
    rw [List.getLast?_concat] at hx
    rw [List.head?_append, hhd] at hy
    rw [← Option.some.inj hx]
    have hy1 : hd = y := Option.some.inj hy
    rw [← hy1]
    unfold Linked
    dsimp only
    rw [spliced_prev _ _ _ _ _ _ h1 h2, if_pos rfl, spliced_self _ _ _ _ _ h1 h2]
    exact ⟨hF.1, rfl⟩
  · intro x hx
    dsimp only
    rcases List.mem_append.mp hx with h | h
    · have x2 : x ≠ p := fun e => hnot (e ▸ h)
      rw [(spliced_other _ _ _ _ _ _ x2).1]
      exact r7 x h
    · rw [List.mem_singleton.mp h, spliced_self _ _ _ _ _ h1 h2]
      exact hF.2.2

theorem create_succeeds_iff (c : CreateCall) :
    create_succeeds c = true ↔ create_args_ok c.pool_ptr c.mm_size c.start_address := by
  unfold create_succeeds create_args_ok
  simp only [Bool.and_eq_true, decide_eq_true_eq]
  constructor
  · rintro ⟨⟨h1, h2⟩, h3⟩
    exact ⟨h1, h2, h3⟩
  · rintro ⟨h1, h2, h3⟩
    exact ⟨⟨h1, h2⟩, h3⟩

theorem registered_cons (c : CreateCall) (cs : List CreateCall) :
    registered (c :: cs)
      = (if create_succeeds c = true then [c.pool_ptr] else []) ++ registered cs := by
  unfold registered
  by_cases h : create_succeeds c = true
  · rw [List.filter_cons_of_pos h, if_pos h]
    rfl
  · rw [List.filter_cons_of_neg h, if_neg h]
    rfl

theorem create_ring_step (s : State) (L : List Ptr) (c : CreateCall)
    (hring : Ring s L) (hnot : c.pool_ptr ∉ L)
    (hn0 : INT_MIN ≤ c.mm_size) (hn1 : c.mm_size ≤ INT_MAX)
    (hlen : (L.length : Int) < INT_MAX) :
    ∃ t : State, mm_pool_create s c.pool_ptr c.mm_size c.start_address = some t ∧
      Ring t (L ++ (if create_succeeds c = true then [c.pool_ptr] else [])) := by
  have hiff := args_ok_iff c.pool_ptr c.mm_size c.start_address hn0 hn1
  by_cases hok : create_args_ok c.pool_ptr c.mm_size c.start_address
  · rw [if_pos ((create_succeeds_iff c).mpr hok)]
    obtain ⟨hg, hm⟩ := hiff.mp hok
    obtain ⟨r1, r2, r3, r4, r5, r6, r7⟩ := hring
    cases hL : L with
    | nil =>
      have hc : s._mm_byte_count = 0 := by
        rw [r3, hL]
        rfl
      exact ⟨_, create_first s c.pool_ptr c.mm_size c.start_address hg hm hc,
        ring_first s c.pool_ptr c.start_address _ hok.1 hc⟩
    | cons hd tl =>
      rw [← hL]
      have hhd : L.head? = some hd := by
        rw [hL]
        rfl
      have hlast : L.getLast? = some ((hd :: tl).getLast (List.cons_ne_nil hd tl)) := by
        rw [hL]
        exact List.getLast?_eq_getLast _ _
      have mhd : hd ∈ L := List.mem_of_mem_head? hhd
      have mlast := List.mem_of_mem_getLast? hlast
      have e1 : s._mm_head = hd := by
        rw [r4, hhd]
        rfl
      have e2 : (s.heap hd).prev = (hd :: tl).getLast (List.cons_ne_nil hd tl) :=
        (r6 _ _ hlast hhd).2
      have hc : s._mm_byte_count ≠ 0 := by
        rw [r3, hL]
        simp only [List.length_cons]
        push_cast
        omega
      have hcn := create_next s c.pool_ptr c.mm_size c.start_address hg hm hc
        (by rw [e1]; exact r2 hd mhd) (by rw [e1]; exact fun (e : hd = c.pool_ptr) => hnot (e ▸ mhd))
        (by rw [e1, e2]; exact r2 _ mlast)
      rw [e1, e2] at hcn
      exact ⟨_, hcn, ring_splice s L c.pool_ptr hd _ _ ⟨r1, r2, r3, r4, r5, r6, r7⟩ hhd hlast
        hok.1 hnot hlen ⟨rfl, rfl, rfl⟩⟩
  · rw [if_neg (fun h => hok ((create_succeeds_iff c).mp h)), List.append_nil]
    by_cases hg : c.start_address = NULL ∨ c.pool_ptr = NULL ∨ c.mm_size ≤ 0
    · exact ⟨s, create_rejected s _ _ _ hg, hring⟩
    · have hm : rounded_size c.mm_size = 0 := by
        by_contra hne
        exact hok (hiff.mpr ⟨hg, hne⟩)
      refine ⟨_, create_too_small s _ _ _ hg hm, ring_same_blocks s L _ hring ?_⟩
      intro x hx
      have hxp : x ≠ c.pool_ptr := fun e => hnot (e ▸ hx)
      rw [store_apply, if_neg hxp]

theorem create_all_ring :
    ∀ (calls : List CreateCall) (s : State) (L : List Ptr), Ring s L →
      (∀ c ∈ calls, c.pool_ptr ∉ L) → (calls.map (fun c => c.pool_ptr)).Nodup →
      (∀ c ∈ calls, INT_MIN ≤ c.mm_size ∧ c.mm_size ≤ INT_MAX) →
      ((L.length : Int) + calls.length ≤ INT_MAX) →
      ∃ t : State, create_all s calls = some t ∧ Ring t (L ++ registered calls) := by
  intro calls
  induction calls with
  | nil =>
    intro s L hring _ _ _ _
    refine ⟨s, rfl, ?_⟩
    unfold registered
    simpa using hring
  | cons c cs ih =>
    intro s L hring hnot hnd hint hlen
    have hlen1 : (L.length : Int) < INT_MAX := by
      simp only [List.length_cons] at hlen
      push_cast at hlen
      omega
    obtain ⟨t1, ht1, hring1⟩ := create_ring_step s L c hring
      (hnot c (List.mem_cons_self c cs)) (hint c (List.mem_cons_self c cs)).1
      (hint c (List.mem_cons_self c cs)).2 hlen1
    rw [List.map_cons, List.nodup_cons] at hnd
    have hnot1 : ∀ d ∈ cs,
        d.pool_ptr ∉ L ++ (if create_succeeds c = true then [c.pool_ptr] else []) := by
      intro d hd hmem
      rcases List.mem_append.mp hmem with h | h
      · exact hnot d (List.mem_cons_of_mem c hd) h
      · split_ifs at h with hs
        · rw [List.mem_singleton] at h
          exact hnd.1 (List.mem_map.mpr ⟨d, hd, h⟩)
        · exact absurd h (List.not_mem_nil _)
    have hlen2 : (((L ++ (if create_succeeds c = true then [c.pool_ptr] else [])).length : Nat)
        : Int) + cs.length ≤ INT_MAX := by
      simp only [List.length_cons] at hlen
      push_cast at hlen
      split_ifs
      · simp only [List.length_append, List.length_singleton]
        push_cast
        omega
      · simp only [List.append_nil]
        omega
    obtain ⟨t, ht, hringt⟩ := ih t1 _ hring1 hnot1 hnd.2
      (fun d hd => hint d (List.mem_cons_of_mem c hd)) hlen2
    refine ⟨t, ?_, ?_⟩
    · simp only [create_all, ht1]
      exact ht
    · rw [registered_cons, ← List.append_assoc]
      exact hringt

/-! ## What a ring gives -/

theorem ring_succ (s : State) (L : List Ptr) (hring : Ring s L) (x : Ptr) (hx : x ∈ L) :
    ∃ y ∈ L, Linked s x y := by
  obtain ⟨_, _, _, _, r5, r6, _⟩ := hring
  obtain ⟨i, hi⟩ := List.mem_iff_getElem?.mp hx
  have hb : i < L.length := (List.getElem?_eq_some_iff.mp hi).1
  by_cases h : i + 1 < L.length
  · have hy : L[i + 1]? = some (L[i + 1]) := List.getElem?_eq_getElem h
    exact ⟨_, List.getElem?_mem hy, r5 i x _ hi hy⟩
  · have hlast : L.getLast? = some x := by
      rw [List.getLast?_eq_getElem?, ← hi]
      congr 1
      omega
    have h0 : L[0]? = some (L[0]) := List.getElem?_eq_getElem (by omega)
    have hhd : L.head? = some (L[0]) := by
      rw [List.head?_eq_getElem?]
      exact h0
    exact ⟨_, List.getElem?_mem h0, r6 x _ hlast hhd⟩

theorem ring_pred (s : State) (L : List Ptr) (hring : Ring s L) (x : Ptr) (hx : x ∈ L) :
    ∃ z ∈ L, Linked s z x := by
  obtain ⟨_, _, _, _, r5, r6, _⟩ := hring
  obtain ⟨i, hi⟩ := List.mem_iff_getElem?.mp hx
  have hb : i < L.length := (List.getElem?_eq_some_iff.mp hi).1
  cases i with
  | zero =>
    have hhd : L.head? = some x := by
      rw [List.head?_eq_getElem?]
      exact hi
    have hl : L[L.length - 1]? = some (L[L.length - 1]) :=
      List.getElem?_eq_getElem (by omega)
    have hlast : L.getLast? = some (L[L.length - 1]) := by
      rw [List.getLast?_eq_getElem?]
      exact hl
    exact ⟨_, List.getElem?_mem hl, r6 _ x hlast hhd⟩
  | succ j =>
    have hz : L[j]? = some (L[j]) := List.getElem?_eq_getElem (by omega)
    exact ⟨_, List.getElem?_mem hz, r5 j _ x hz hi⟩

theorem ring_iterate (s : State) (L : List Ptr) (hring : Ring s L) :
    ∀ (k i : Nat) (x y : Ptr), L[i]? = some x → L[i + k]? = some y →
      (next_of s)^[k] x = y := by
  obtain ⟨_, _, _, _, r5, _, _⟩ := hring
  intro k
  induction k with
  | zero =>
    intro i x y hx hy
    rw [Nat.add_zero, hx] at hy
    exact Option.some.inj hy
  | succ k ih =>
    intro i x y hx hy
    have hb : i + (k + 1) < L.length := (List.getElem?_eq_some_iff.mp hy).1
    have hz : L[i + 1]? = some (L[i + 1]) := List.getElem?_eq_getElem (by omega)
    have hstep : next_of s x = L[i + 1] := (r5 i x _ hx hz).1
    rw [Function.iterate_succ_apply, hstep]
    refine ih (i + 1) _ y hz ?_
    rw [← hy]
    congr 1
    omega

theorem ring_reach (s : State) (L : List Ptr) (hring : Ring s L) (x y : Ptr)
    (hx : x ∈ L) (hy : y ∈ L) : Reachable s x y := by
  obtain ⟨i, hi⟩ := List.mem_iff_getElem?.mp hx
  obtain ⟨j, hj⟩ := List.mem_iff_getElem?.mp hy
  have hbi : i < L.length := (List.getElem?_eq_some_iff.mp hi).1
  have hbj : j < L.length := (List.getElem?_eq_some_iff.mp hj).1
  by_cases hij : i ≤ j
  · refine ⟨j - i, ring_iterate s L hring (j - i) i x y hi ?_⟩
    rw [← hj]
    congr 1
    omega
  · have hl : L[L.length - 1]? = some (L[L.length - 1]) :=
      List.getElem?_eq_getElem (by omega)
    have h0 : L[0]? = some (L[0]) := List.getElem?_eq_getElem (by omega)
    have hlast : L.getLast? = some (L[L.length - 1]) := by
      rw [List.getLast?_eq_getElem?]
      exact hl
    have hhd : L.head? = some (L[0]) := by
      rw [List.head?_eq_getElem?]
      exact h0
    have s1 : (next_of s)^[L.length - 1 - i] x = L[L.length - 1] := by
      refine ring_iterate s L hring _ i x _ hi ?_
      rw [← hl]
      congr 1
      omega
    have s2 : next_of s (L[L.length - 1]) = L[0] := (hring.2.2.2.2.2.1 _ _ hlast hhd).1
    have s3 : (next_of s)^[j] (L[0]) = y := by
      refine ring_iterate s L hring j 0 _ y h0 ?_
      rw [← hj]
      congr 1
      omega
    refine ⟨j + (1 + (L.length - 1 - i)), ?_⟩
    rw [Function.iterate_add_apply, Function.iterate_add_apply, s1,
      Function.iterate_one, s2, s3]

theorem ring_links (s : State) (L : List Ptr) (hring : Ring s L) (x : Ptr) (hx : x ∈ L) :
    (s.heap x).next ∈ L ∧ (s.heap x).prev ∈ L ∧
    (s.heap (s.heap x).next).prev = x ∧ (s.heap (s.heap x).prev).next = x := by
  obtain ⟨y, hy, l1, l2⟩ := ring_succ s L hring x hx
  obtain ⟨z, hz, l3, l4⟩ := ring_pred s L hring x hx
  rw [l1, l4]
  exact ⟨hy, hz, l2, l3⟩

theorem ring_head (s : State) (L : List Ptr) (hring : Ring s L) :
    (L = [] → s._mm_head = NULL ∧ s._mm_byte_count = 0) ∧
    (L ≠ [] → s._mm_head ∈ L ∧ s._mm_head ≠ NULL ∧ s._mm_byte_count ≠ 0) := by
  obtain ⟨_, r2, r3, r4, _, _, _⟩ := hring
  constructor
  · intro e
    rw [r3, r4, e]
    exact ⟨rfl, rfl⟩
  · intro hne
    cases hL : L with
    | nil => exact absurd hL hne
    | cons hd tl =>
      rw [hL] at r2 r3 r4
      have e : s._mm_head = hd := r4
      rw [e, r3]
      refine ⟨List.mem_cons_self hd tl, r2 hd (List.mem_cons_self hd tl), ?_⟩
      simp only [List.length_cons]
      push_cast
      omega

/-! ## Sequences of `mm_pool_create` from the empty registry -/

/-- C14 as stated fails: after `mm_pool_create` of the block at 1000, of the
block at 2000 and of the block at 2000 once more, the head is the block at
1000, its `next` is the block at 2000, whose `prev` and `next` are the block
at 2000 itself: `head.next.prev` is not the head, and the head is not reached
from the block at 2000. -/
theorem recreate_breaks_ring :
    ∃ t : State,
      create_all (initial zero_heap)
        [{ pool_ptr := 1000, mm_size := 50, start_address := 4096 },
         { pool_ptr := 2000, mm_size := 50, start_address := 8192 },
         { pool_ptr := 2000, mm_size := 50, start_address := 8192 }] = some t ∧
      t._mm_head = 1000 ∧ (t.heap 1000).next = 2000 ∧ (t.heap 2000).prev = 2000 ∧
      (t.heap 2000).next = 2000 ∧ (t.heap (t.heap 1000).next).prev ≠ 1000 := by
  refine ⟨_, rfl, ?_⟩
  decide

/-- C14, amended: after every sequence of fewer than `2^31` `mm_pool_create`
calls on pairwise distinct control blocks with `int` sizes, starting from the
empty registry, the calls all return and the registry is empty (head `NULL`,
count 0) when no create succeeded, and otherwise a single ring of the blocks
of the successful creates: the head is one of them, `next` and `prev` of a
member are members, `p.next.prev = p` and `p.prev.next = p` for every member
`p`, and every member is reached from the head and from every other member by
following `next` links. -/
theorem registry_is_ring (h : Ptr → mm_pool_s) (calls : List CreateCall)
    (hnd : (calls.map (fun c => c.pool_ptr)).Nodup)
    (hint : ∀ c ∈ calls, INT_MIN ≤ c.mm_size ∧ c.mm_size ≤ INT_MAX)
    (hlen : (calls.length : Int) ≤ INT_MAX) :
    ∃ t : State, create_all (initial h) calls = some t ∧
      (registered calls = [] → t._mm_head = NULL ∧ t._mm_byte_count = 0) ∧
      (registered calls ≠ [] → t._mm_head ∈ registered calls) ∧
      ∀ x ∈ registered calls,
        (t.heap x).next ∈ registered calls ∧ (t.heap x).prev ∈ registered calls ∧
        (t.heap (t.heap x).next).prev = x ∧ (t.heap (t.heap x).prev).next = x ∧
        Reachable t t._mm_head x ∧ ∀ y ∈ registered calls, Reachable t x y := by
  obtain ⟨t, ht, hring⟩ := create_all_ring calls (initial h) [] (ring_initial h)
    (fun c _ => List.not_mem_nil _) hnd hint (by simpa using hlen)
  rw [List.nil_append] at hring
  obtain ⟨e1, e2⟩ := ring_head t _ hring
  refine ⟨t, ht, e1, fun hne => (e2 hne).1, ?_⟩
  intro x hx
  obtain ⟨l1, l2, l3, l4⟩ := ring_links t _ hring x hx
  have hne : registered calls ≠ [] := List.ne_nil_of_mem hx
  exact ⟨l1, l2, l3, l4, ring_reach t _ hring _ x (e2 hne).1 hx,
    fun y hy => ring_reach t _ hring x y hx hy⟩

theorem registry_is_ring_witness :
    (demo_creates.map (fun c => c.pool_ptr)).Nodup ∧
    (∀ c ∈ demo_creates, INT_MIN ≤ c.mm_size ∧ c.mm_size ≤ INT_MAX) ∧
    ((demo_creates.length : Int) ≤ INT_MAX) ∧
    ∃ t : State, create_all (initial zero_heap) demo_creates = some t ∧
      (registered demo_creates = [] → t._mm_head = NULL ∧ t._mm_byte_count = 0) ∧
      (registered demo_creates ≠ [] → t._mm_head ∈ registered demo_creates) ∧
      ∀ x ∈ registered demo_creates,
        (t.heap x).next ∈ registered demo_creates ∧
        (t.heap x).prev ∈ registered demo_creates ∧
        (t.heap (t.heap x).next).prev = x ∧ (t.heap (t.heap x).prev).next = x ∧
        Reachable t t._mm_head x ∧ ∀ y ∈ registered demo_creates, Reachable t x y :=
  ⟨by decide, by decide, by decide,
    registry_is_ring zero_heap demo_creates (by decide) (by decide) (by decide)⟩

/-- C16 as stated fails: the blocks at 1000 and 2000 hold the distinct ids
1000 and 2000 before they are created; after `mm_pool_create` of both, the two
distinct registered pools hold the same `mm_pool_id`, 0. -/
theorem created_ids_equal :
    (numbered_heap 1000).mm_pool_id ≠ (numbered_heap 2000).mm_pool_id ∧
    registered demo_creates = [1000, 2000] ∧
    ∃ t : State, create_all (initial numbered_heap) demo_creates = some t ∧
      (t.heap 1000).mm_pool_id = (t.heap 2000).mm_pool_id := by
  refine ⟨by decide, by decide, _, rfl, ?_⟩
  decide

/-- C16, amended: `mm_pool_create` zeroes `mm_pool_id` and nothing assigns it:
after every sequence of fewer than `2^31` creates on pairwise distinct control
blocks with `int` sizes from the empty registry, every registered pool has
`mm_pool_id` 0, so the ids of two registered pools are equal; the pools are
told apart by the addresses of their control blocks, which are pairwise
distinct. -/
theorem created_ids_zero (h : Ptr → mm_pool_s) (calls : List CreateCall)
    (hnd : (calls.map (fun c => c.pool_ptr)).Nodup)
    (hint : ∀ c ∈ calls, INT_MIN ≤ c.mm_size ∧ c.mm_size ≤ INT_MAX)
    (hlen : (calls.length : Int) ≤ INT_MAX) :
    ∃ t : State, create_all (initial h) calls = some t ∧
      (registered calls).Nodup ∧
      (∀ x ∈ registered calls, (t.heap x).mm_pool_id = 0) ∧
      ∀ x ∈ registered calls, ∀ y ∈ registered calls,
        (t.heap x).mm_pool_id = (t.heap y).mm_pool_id := by
  obtain ⟨t, ht, hring⟩ := create_all_ring calls (initial h) [] (ring_initial h)
    (fun c _ => List.not_mem_nil _) hnd hint (by simpa using hlen)
  rw [List.nil_append] at hring
  obtain ⟨r1, _, _, _, _, _, r7⟩ := hring
  exact ⟨t, ht, r1, r7, fun x hx y hy => (r7 x hx).trans (r7 y hy).symm⟩

theorem created_ids_zero_witness :
    (demo_creates.map (fun c => c.pool_ptr)).Nodup ∧
    (∀ c ∈ demo_creates, INT_MIN ≤ c.mm_size ∧ c.mm_size ≤ INT_MAX) ∧
    ((demo_creates.length : Int) ≤ INT_MAX) ∧
    ∃ t : State, create_all (initial numbered_heap) demo_creates = some t ∧
      (registered demo_creates).Nodup ∧
      (∀ x ∈ registered demo_creates, (t.heap x).mm_pool_id = 0) ∧
      ∀ x ∈ registered demo_creates, ∀ y ∈ registered demo_creates,
        (t.heap x).mm_pool_id = (t.heap y).mm_pool_id :=
  ⟨by decide, by decide, by decide,
    created_ids_zero numbered_heap demo_creates (by decide) (by decide) (by decide)⟩

theorem create_first_registered (s : State) (p a : Ptr) (m : Int)
    (hc : s._mm_byte_count = 0) :
    Registered s
      { heap := store s.heap p (fresh_block a m p p), _mm_head := p,
        _mm_byte_count := toInt (s._mm_byte_count + 1) } p := by
  refine ⟨?_, fun _ => ⟨rfl, ?_, ?_, ?_⟩, fun hne => absurd hc hne⟩
  · dsimp only
    rw [hc]
    decide
  · dsimp only
    rw [store_at]
    rfl
  · dsimp only
    rw [store_at]
    rfl
  · intro q hq
    dsimp only
    rw [store_apply, if_neg hq]

theorem create_next_registered (s : State) (p a : Ptr) (m : Int)
    (hc0 : INT_MIN ≤ s._mm_byte_count) (hc1 : s._mm_byte_count < INT_MAX)
    (hc : s._mm_byte_count ≠ 0)
    (hne1 : p ≠ s._mm_head) (hne2 : p ≠ (s.heap s._mm_head).prev) :
    Registered s
      { heap := store
          (store (store s.heap p (fresh_block a m s._mm_head (s.heap s._mm_head).prev))
            s._mm_head (set_prev (s.heap s._mm_head) p))
          (s.heap s._mm_head).prev
          (set_next (store (store s.heap p (fresh_block a m s._mm_head
              (s.heap s._mm_head).prev))
            s._mm_head (set_prev (s.heap s._mm_head) p) (s.heap s._mm_head).prev) p),
        _mm_head := s._mm_head,
        _mm_byte_count := toInt (s._mm_byte_count + 1) } p := by
  refine ⟨toInt_succ _ hc0 hc1, fun h0 => absurd h0 hc, fun _ => ⟨rfl, ?_, ?_, ?_, ?_, ?_, ?_⟩⟩
  · dsimp only
    rw [spliced_self _ _ _ _ _ (Ne.symm hne1) (Ne.symm hne2)]
    rfl
  · dsimp only
    rw [spliced_self _ _ _ _ _ (Ne.symm hne1) (Ne.symm hne2)]
    rfl
  · dsimp only
    rw [spliced_prev _ _ _ _ _ _ (Ne.symm hne1) (Ne.symm hne2), if_pos rfl]
  · dsimp only
    rw [spliced_next _ _ _ _ _ _ (Ne.symm hne1) (Ne.symm hne2), if_pos rfl]
  · intro q h1 h2
    dsimp only
    rw [spliced_prev _ _ _ _ _ _ (Ne.symm hne1) (Ne.symm hne2), if_neg h2, if_neg h1]
  · intro q h1 h2
    dsimp only
    rw [spliced_next _ _ _ _ _ _ (Ne.symm hne1) (Ne.symm hne2), if_neg h2, if_neg h1]

theorem not_registered_of_count (s t : State) (p : Ptr)
    (h : t._mm_byte_count = s._mm_byte_count) : ¬ Registered s t p := by
  rintro ⟨h1, _⟩
  rw [h] at h1
  omega

/-- C8 as stated fails: after `mm_pool_create` of the block at 1000, a second
`mm_pool_create` of the same block with the same accepted arguments (non-null
block, non-null storage, rounded size 48) dereferences `NULL` at
`prev->next = pool_ptr` and registers nothing. -/
theorem recreate_head_registers_nothing :
    ∃ s : State, mm_pool_create (initial zero_heap) 1000 50 4096 = some s ∧
      create_args_ok 1000 50 4096 ∧
      mm_pool_create s 1000 50 4096 = none ∧
      ¬ ∃ t : State, mm_pool_create s 1000 50 4096 = some t ∧ Registered s t 1000 := by
  refine ⟨_, rfl, ⟨by decide, by decide, by decide⟩, rfl, ?_⟩
  rintro ⟨t, ht, _⟩
  exact Option.some_ne_none t (ht.symm.trans rfl)


/-- C8, amended: for an `int` size and a pool count below `INT_MAX`. Whenever
the registry can take the block (it is empty, or head and tail are non-null
and the block is neither), `mm_pool_create` returns, and it registers the
block (count plus one, singleton ring on the empty registry, otherwise spliced
between the old tail and the head) if and only if the block is non-null, the
storage is non-null and the size rounded down to a multiple of `ALIGN_SIZE`
is positive. In every other case of the arguments the call returns without
registering, and the head, the count and every other control block are
unchanged. No returning call registers the block on other arguments. -/
theorem create_registers_iff (s : State) (pool_ptr : Ptr) (mm_size : Int) (start_address : Ptr)
    (hn0 : INT_MIN ≤ mm_size) (hn1 : mm_size ≤ INT_MAX)
    (hc0 : INT_MIN ≤ s._mm_byte_count) (hc1 : s._mm_byte_count < INT_MAX) :
    (RegistryTakes s pool_ptr →
      ∃ t : State, mm_pool_create s pool_ptr mm_size start_address = some t ∧
        (Registered s t pool_ptr ↔ create_args_ok pool_ptr mm_size start_address)) ∧
    (¬ create_args_ok pool_ptr mm_size start_address →
      ∃ t : State, mm_pool_create s pool_ptr mm_size start_address = some t ∧
        ¬ Registered s t pool_ptr ∧
        t._mm_head = s._mm_head ∧ t._mm_byte_count = s._mm_byte_count ∧
        ∀ q : Ptr, q ≠ pool_ptr → t.heap q = s.heap q) ∧
    (∀ t : State, mm_pool_create s pool_ptr mm_size start_address = some t →
      Registered s t pool_ptr → create_args_ok pool_ptr mm_size start_address) := by
  have hiff := args_ok_iff pool_ptr mm_size start_address hn0 hn1
  have hrej : ¬ create_args_ok pool_ptr mm_size start_address →
      ∃ t : State, mm_pool_create s pool_ptr mm_size start_address = some t ∧
        ¬ Registered s t pool_ptr ∧
        t._mm_head = s._mm_head ∧ t._mm_byte_count = s._mm_byte_count ∧
        ∀ q : Ptr, q ≠ pool_ptr → t.heap q = s.heap q := by
    intro hno
    by_cases hg : start_address = NULL ∨ pool_ptr = NULL ∨ mm_size ≤ 0
    · exact ⟨s, create_rejected s _ _ _ hg, not_registered_of_count s s _ rfl, rfl, rfl,
        fun q _ => rfl⟩
    · have hm : rounded_size mm_size = 0 := by
        by_contra hne
        exact hno (hiff.mpr ⟨hg, hne⟩)
      refine ⟨_, create_too_small s _ _ _ hg hm, not_registered_of_count s _ _ rfl, rfl, rfl,
        ?_⟩
      intro q hq
      dsimp only
      rw [store_apply, if_neg hq]
  refine ⟨?_, hrej, ?_⟩
  · intro htakes
    by_cases hok : create_args_ok pool_ptr mm_size start_address
    · obtain ⟨hg, hm⟩ := hiff.mp hok
      by_cases hc : s._mm_byte_count = 0
      · exact ⟨_, create_first s pool_ptr mm_size start_address hg hm hc,
          fun _ => hok, fun _ => create_first_registered s pool_ptr start_address _ hc⟩
      · rcases htakes with h0 | ⟨hh, hq, hne1, hne2⟩
        · exact absurd h0 hc
        · exact ⟨_, create_next s pool_ptr mm_size start_address hg hm hc hh (Ne.symm hne1) hq,
            fun _ => hok,
            fun _ => create_next_registered s pool_ptr start_address _ hc0 hc1 hc hne1 hne2⟩
    · obtain ⟨t, ht, hnr, _⟩ := hrej hok
      exact ⟨t, ht, fun h => absurd h hnr, fun h => absurd h hok⟩
  · intro t ht hreg
    by_contra hno
    obtain ⟨u, hu, hnr, _⟩ := hrej hno
    rw [hu] at ht
    rw [Option.some.inj ht] at hnr
    exact hnr hreg

theorem create_registers_iff_witness :
    INT_MIN ≤ 50 ∧ (50 : Int) ≤ INT_MAX ∧ INT_MIN ≤ demo_registry._mm_byte_count ∧
    demo_registry._mm_byte_count < INT_MAX ∧
    RegistryTakes demo_registry 2000 ∧ create_args_ok 2000 50 8192 ∧
    (RegistryTakes demo_registry 2000 →
      ∃ t : State, mm_pool_create demo_registry 2000 50 8192 = some t ∧
        (Registered demo_registry t 2000 ↔ create_args_ok 2000 50 8192)) ∧
    (¬ create_args_ok 2000 50 8192 →
      ∃ t : State, mm_pool_create demo_registry 2000 50 8192 = some t ∧
        ¬ Registered demo_registry t 2000 ∧
        t._mm_head = demo_registry._mm_head ∧
        t._mm_byte_count = demo_registry._mm_byte_count ∧
        ∀ q : Ptr, q ≠ 2000 → t.heap q = demo_registry.heap q) ∧
    (∀ t : State, mm_pool_create demo_registry 2000 50 8192 = some t →
      Registered demo_registry t 2000 → create_args_ok 2000 50 8192) :=
  ⟨by decide, by decide, by decide, by decide,
    Or.inr ⟨by decide, by decide, by decide, by decide⟩, ⟨by decide, by decide, by decide⟩,
    create_registers_iff demo_registry 2000 50 8192 (by decide) (by decide) (by decide)
      (by decide)⟩

/-! ## Frame of `mm_pool_allocate` and `mm_pool_free` -/

end MemoryPool
